import Mathlib

/-!
Verification of the unify-chat-provider core against its specification.

Shallow embedding of:
* the retrying HTTP transport (`fetchWithRetry`, `calculateBackoffDelay`
  from `src/utils.ts`);
* the Anthropic adapter's message normalization (`ensureAlternatingRoles`),
  tool-choice resolution (`convertToolChoice`) and SSE stream state machine
  (`parseSSEStream`);
* the Antigravity adapter's schema sanitizer
  (`cleanJsonSchemaForAntigravity` / `simplifyUnionSchemas`) and its
  thinking-budget validation in `streamChat`;
* the dispatch service's model-id composition
  (`createModelId` / `parseModelId` / `encodeProviderName` /
  `decodeProviderName`, including models of the platform
  `encodeURIComponent` / `decodeURIComponent`).

JavaScript machine integers/floats are modelled with `Nat`/`Int`/`Rat`
(the quantities involved are small and exact), JS objects with
insertion-ordered association lists, and fallible code with
`Option`/`Except`.
-/

/-- A JSON value, used both for tool input payloads assembled by the SSE
stream machine and for the JSON Schemas handled by the Antigravity schema
sanitizer.  Objects are insertion-ordered association lists, mirroring the
key ordering semantics of JavaScript objects. -/
inductive Json where
  | null : Json
  | bool (b : Bool) : Json
  | num (q : ℚ) : Json
  | str (s : String) : Json
  | arr (items : List Json) : Json
  | obj (entries : List (String × Json)) : Json
deriving Repr

namespace Retry

/-- An HTTP response, reduced to the status code (the only field the retry
loop in `src/utils.ts` inspects). -/
structure Response where
  status : ℕ
deriving DecidableEq, Repr

/-- The WHATWG `Response.ok` accessor: status in the inclusive range
200–299. -/
def Response.ok (r : Response) : Bool :=
  200 ≤ r.status && r.status ≤ 299

/-- `RETRYABLE_STATUS_CODES` from `src/utils.ts`. -/
def RETRYABLE_STATUS_CODES : List ℕ := [429, 500, 502, 503, 504]

/-- `isRetryableStatusCode` from `src/utils.ts`. -/
def isRetryableStatusCode (status : ℕ) : Bool :=
  RETRYABLE_STATUS_CODES.contains status

/-- Outcome of one `fetch` call: either an HTTP response or a thrown
network-level failure (including abort). -/
inductive FetchOutcome where
  | response (r : Response) : FetchOutcome
  | failure (e : String) : FetchOutcome
deriving DecidableEq, Repr

/-- How a run of `fetchWithRetry` ends: a returned response, a propagated
thrown error, or the unreachable `lastResponse!` with no stored response. -/
inductive RetryResult where
  | returned (r : Response) : RetryResult
  | threw (e : String) : RetryResult
  | noLastResponse : RetryResult
deriving DecidableEq, Repr

/-- Observable trace of one `fetchWithRetry` run: final result, number of
`fetch` calls issued, and the attempt indices at which the loop slept. -/
structure RetryRun where
  result : RetryResult
  fetches : ℕ
  sleptAttempts : List ℕ
deriving DecidableEq, Repr

/-- The `while (attempt <= maxRetries)` loop of `fetchWithRetry`
(`src/utils.ts`).  `fetchAt n` is the outcome of the `fetch` call of
attempt `n`.  The loop runs at most `maxRetries + 1` iterations; the
`fuel` argument is initialized to exactly that bound, so running out of
fuel is the loop exit `attempt > maxRetries`. -/
def fetchWithRetryGo (fetchAt : ℕ → FetchOutcome) (maxRetries : ℕ) :
    ℕ → ℕ → Option Response → RetryRun
  | 0, _, last =>
    -- loop exit: `return lastResponse!`
    match last with
    | some r => ⟨.returned r, 0, []⟩
    | none => ⟨.noLastResponse, 0, []⟩
  | fuel + 1, attempt, _last =>
    match fetchAt attempt with
    | .failure e =>
      -- network errors or abort signals are rethrown, not retried
      ⟨.threw e, 1, []⟩
    | .response r =>
      if r.ok || !isRetryableStatusCode r.status then
        -- successful or non-retryable: return immediately
        ⟨.returned r, 1, []⟩
      else
        -- retryable status code: optionally sleep, then loop
        let rest := fetchWithRetryGo fetchAt maxRetries fuel (attempt + 1) (some r)
        ⟨rest.result, rest.fetches + 1,
          (if attempt < maxRetries then [attempt] else []) ++ rest.sleptAttempts⟩

/-- `fetchWithRetry` from `src/utils.ts`, as a function of the sequence of
fetch outcomes. -/
def fetchWithRetry (fetchAt : ℕ → FetchOutcome) (maxRetries : ℕ) : RetryRun :=
  fetchWithRetryGo fetchAt maxRetries (maxRetries + 1) 0 none

/-- The backoff parameters of `fetchWithRetry` (`src/utils.ts`). -/
structure BackoffConfig where
  initialDelayMs : ℚ
  maxDelayMs : ℚ
  backoffMultiplier : ℚ
  jitterFactor : ℚ
deriving DecidableEq, Repr

/-- `DEFAULT_RETRY_CONFIG` from `src/utils.ts` (delay-related fields). -/
def DEFAULT_RETRY_CONFIG : BackoffConfig :=
  { initialDelayMs := 1000
    maxDelayMs := 60000
    backoffMultiplier := 2
    jitterFactor := 0.1 }

/-- `calculateBackoffDelay` from `src/utils.ts`.  `rand` is the value of
the `Math.random()` draw (in `[0, 1)`); `Math.round` rounds half toward
positive infinity, which is Lean's `round` on `ℚ`. -/
def calculateBackoffDelay (attempt : ℕ) (config : BackoffConfig) (rand : ℚ) : ℤ :=
  let exponentialDelay := config.initialDelayMs * config.backoffMultiplier ^ attempt
  let cappedDelay := min exponentialDelay config.maxDelayMs
  let jitterRange := cappedDelay * config.jitterFactor
  let jitter := (rand * 2 - 1) * jitterRange
  round (cappedDelay + jitter)

end Retry

namespace AnthropicAdapter

/-- Message roles of the Anthropic Messages API (the roles that
`convertMessages` produces). -/
inductive Role where
  | user : Role
  | assistant : Role
deriving DecidableEq, Repr

/-- An Anthropic content block (the variants constructed by the
client's message conversion; payloads reduced to the fields that matter
for normalization). -/
inductive AnthropicContentBlock where
  | text (text : String) : AnthropicContentBlock
  | image (data : String) : AnthropicContentBlock
  | toolUse (id name : String) (input : Json) : AnthropicContentBlock
  | toolResult (toolUseId : String) (content : String) : AnthropicContentBlock
  | thinking (thinking signature : String) : AnthropicContentBlock
  | redactedThinking (data : String) : AnthropicContentBlock
deriving Repr

/-- An Anthropic message: role plus ordered content blocks. -/
structure AnthropicMessage where
  role : Role
  content : List AnthropicContentBlock
deriving Repr

/-- One iteration of the merge loop of `ensureAlternatingRoles`:
the accumulator is kept in reverse order (most recent message first),
so the JS `result[result.length - 1]` is the list head. -/
def mergeStep (acc : List AnthropicMessage) (msg : AnthropicMessage) :
    List AnthropicMessage :=
  match acc with
  | [] => [msg]
  | last :: prev =>
    if last.role = msg.role then
      -- merge with previous message of the same role
      { last with content := last.content ++ msg.content } :: prev
    else
      msg :: last :: prev

/-- The merge loop of `ensureAlternatingRoles`: consecutive messages of
the same role are merged by concatenating their content. -/
def mergeMessages (messages : List AnthropicMessage) : List AnthropicMessage :=
  (messages.foldl mergeStep []).reverse

/-- The synthetic placeholder message prepended when the first merged
message is not from the user. -/
def syntheticUserMessage : AnthropicMessage :=
  { role := .user, content := [.text "..."] }

/-- `ensureAlternatingRoles` from the Anthropic client: merge runs of
same-role messages, then prepend a placeholder `user` message if the
first message is not from the user. -/
def ensureAlternatingRoles (messages : List AnthropicMessage) :
    List AnthropicMessage :=
  if messages.isEmpty then []
  else
    let result := mergeMessages messages
    match result with
    | [] => []
    | first :: rest =>
      if first.role ≠ .user then syntheticUserMessage :: first :: rest
      else first :: rest

/-- `vscode.LanguageModelChatToolMode`. -/
inductive ToolMode where
  | Auto : ToolMode
  | Required : ToolMode
deriving DecidableEq, Repr

/-- A member of the Anthropic tool union, reduced to the `name` field
(the only field `convertToolChoice` reads). -/
structure AnthropicToolUnion where
  name : String
deriving DecidableEq, Repr

/-- The `tool_choice` values the Anthropic client can produce. -/
inductive AnthropicToolChoice where
  | auto : AnthropicToolChoice
  | any : AnthropicToolChoice
  | tool (name : String) : AnthropicToolChoice
deriving DecidableEq, Repr

/-- `convertToolChoice` from the Anthropic client.  `.ok none` is the JS
`undefined` return (no `tool_choice` field sent); `.error` is a thrown
exception, which in `streamChat` happens before the `fetch` call. -/
def convertToolChoice (toolMode : ToolMode)
    (tools : Option (List AnthropicToolUnion)) (thinkingEnabled : Bool) :
    Except String (Option AnthropicToolChoice) :=
  if thinkingEnabled then
    -- with thinking enabled only the default/auto behaviour is legal
    if toolMode = .Required then .ok (some .auto)
    else .ok none
  else if toolMode = .Required then
    match tools with
    | none => .error "Tool mode is set to Required but no tools are provided"
    | some [] => .error "Tool mode is set to Required but no tools are provided"
    | some [t] => .ok (some (.tool t.name))
    | some (_ :: _ :: _) => .ok (some .any)
  else
    .ok none

end AnthropicAdapter

namespace SSE

/-!
The event-processing state machine of `parseSSEStream` in the Anthropic
client.  The machine is parametric in the type `J` of parsed JSON values
and in the platform JSON parser `jparse : String → Option J`
(`JSON.parse`, with `none` for a thrown `SyntaxError`): the source code
uses `JSON.parse` only through success/failure and the parsed value, so
every theorem below holds for the real parser as a special case.
-/

/-- The stream events `parseSSEStream` dispatches on
(`content_block_start` split by `content_block.type`,
`content_block_delta` split by `delta.type`, and `content_block_stop`). -/
inductive StreamEvent where
  | startToolUse (id name : String) : StreamEvent
  | startThinking : StreamEvent
  | startRedactedThinking (data : String) : StreamEvent
  | startServerToolUse (id name : String) : StreamEvent
  | startWebSearchToolResult (blob : String) : StreamEvent
  | startText (text : String) (citations : List String) : StreamEvent
  | textDelta (text : String) : StreamEvent
  | inputJsonDelta (partialJson : String) : StreamEvent
  | thinkingDelta (thinking : String) : StreamEvent
  | signatureDelta (signature : String) : StreamEvent
  | contentBlockStop : StreamEvent
deriving Repr

/-- The `vscode.LanguageModel*Part` values yielded by `parseSSEStream`.
`thinkingStream` is a `LanguageModelThinkingPart` without metadata
(incremental delta); `thinkingFinal` is the metadata-bearing canonical
part emitted at block stop. -/
inductive ResponsePart (J : Type) where
  | text (s : String) : ResponsePart J
  | toolCall (id name : String) (input : J) : ResponsePart J
  | thinkingStream (s : String) : ResponsePart J
  | thinkingFinal (signature completeThinking : String) : ResponsePart J
  | dataWebSearchResult (blob : String) : ResponsePart J
  | dataServerToolUse (id name : String) (input : J) : ResponsePart J
  | dataCitations (citations : List String) : ResponsePart J
deriving Repr

/-- The tool-call accumulator entry (`currentToolCall` /
`currentServerToolUse`). -/
structure ToolCallState where
  id : String
  name : String
  inputJson : String
deriving DecidableEq, Repr

/-- The pending thinking entry (`pendingThinking`). -/
structure ThinkingState where
  thinking : String
  signature : String
deriving DecidableEq, Repr

/-- The mutable local state of `parseSSEStream`. -/
structure SSEState where
  currentToolCall : Option ToolCallState
  pendingThinking : Option ThinkingState
  pendingRedactedThinking : Option String
  currentServerToolUse : Option ToolCallState
  currentTextBlock : Option (String × Bool)
  pendingWebSearchResult : Option String
deriving DecidableEq, Repr

/-- The initial state of `parseSSEStream` (all trackers `null`). -/
def initState : SSEState :=
  { currentToolCall := none
    pendingThinking := none
    pendingRedactedThinking := none
    currentServerToolUse := none
    currentTextBlock := none
    pendingWebSearchResult := none }

/-- One step of the event dispatch of `parseSSEStream`: next state plus
the parts yielded while handling the event, in order. -/
def processEvent {J : Type} (jparse : String → Option J) (st : SSEState) :
    StreamEvent → SSEState × List (ResponsePart J)
  | .startToolUse id name =>
    ({ st with currentToolCall := some ⟨id, name, ""⟩ }, [])
  | .startThinking =>
    ({ st with pendingThinking := some ⟨"", ""⟩ }, [])
  | .startRedactedThinking data =>
    ({ st with pendingRedactedThinking := some data }, [])
  | .startServerToolUse id name =>
    ({ st with currentServerToolUse := some ⟨id, name, ""⟩ }, [])
  | .startWebSearchToolResult blob =>
    ({ st with pendingWebSearchResult := some blob }, [.dataWebSearchResult blob])
  | .startText text citations =>
    if citations ≠ [] then
      ({ st with currentTextBlock := some (text, true) },
        [.dataCitations citations] ++ if text ≠ "" then [.text text] else [])
    else
      ({ st with currentTextBlock := some (text, false) }, [])
  | .textDelta s => (st, [.text s])
  | .inputJsonDelta s =>
    match st.currentToolCall with
    | some tc =>
      let buf := tc.inputJson ++ s
      -- progressive JSON parsing: emit as soon as the JSON is complete
      match jparse buf with
      | some parsed =>
        ({ st with currentToolCall := none }, [.toolCall tc.id tc.name parsed])
      | none =>
        ({ st with currentToolCall := some { tc with inputJson := buf } }, [])
    | none =>
      match st.currentServerToolUse with
      | some stu =>
        ({ st with currentServerToolUse := some { stu with inputJson := stu.inputJson ++ s } }, [])
      | none => (st, [])
  | .thinkingDelta s =>
    match st.pendingThinking with
    | some pt =>
      ({ st with pendingThinking := some { pt with thinking := pt.thinking ++ s } },
        [.thinkingStream s])
    | none => (st, [])
  | .signatureDelta s =>
    match st.pendingThinking with
    | some pt =>
      ({ st with pendingThinking := some { pt with signature := pt.signature ++ s } }, [])
    | none => (st, [])
  | .contentBlockStop =>
    match st.currentToolCall with
    | some tc =>
      -- final parse, with "{}" substituted for an empty buffer
      let out :=
        match jparse (if tc.inputJson = "" then "\x7b\x7d" else tc.inputJson) with
        | some input => [ResponsePart.toolCall tc.id tc.name input]
        | none => []  -- invalid JSON, skip this tool call
      ({ st with currentToolCall := none }, out)
    | none =>
      match st.currentServerToolUse with
      | some stu =>
        let out :=
          match jparse (if stu.inputJson = "" then "\x7b\x7d" else stu.inputJson) with
          | some input => [ResponsePart.dataServerToolUse stu.id stu.name input]
          | none => []
        ({ st with currentServerToolUse := none }, out)
      | none =>
        match st.pendingThinking with
        | some pt =>
          let out :=
            if pt.signature ≠ "" then [ResponsePart.thinkingFinal pt.signature pt.thinking]
            else []
          ({ st with pendingThinking := none }, out)
        | none =>
          match st.pendingRedactedThinking with
          | some _ => ({ st with pendingRedactedThinking := none }, [])
          | none =>
            match st.pendingWebSearchResult with
            | some _ => ({ st with pendingWebSearchResult := none }, [])
            | none =>
              match st.currentTextBlock with
              | some _ => ({ st with currentTextBlock := none }, [])
              | none => (st, [])

/-- Run `processEvent` over a list of events, concatenating the yielded
parts. -/
def processEvents {J : Type} (jparse : String → Option J) (st : SSEState) :
    List StreamEvent → SSEState × List (ResponsePart J)
  | [] => (st, [])
  | e :: es =>
    let (st', out) := processEvent jparse st e
    let (st'', outs) := processEvents jparse st' es
    (st'', out ++ outs)

/-- A finite fragment of the behaviour of the platform `JSON.parse`,
used to instantiate the parametric stream-machine theorems on concrete
inputs.  It agrees with `JSON.parse` on every string of its domain. -/
def jsonParseSample (s : String) : Option Json :=
  if s = "\x7b\x7d" then some (.obj [])
  else if s = "\x7b\"a\":1\x7d" then some (.obj [("a", .num 1)])
  else none

end SSE

namespace Antigravity

/-- `charsStartsWith l pat` — `pat` is a prefix of `l` (character lists). -/
def charsStartsWith : List Char → List Char → Bool
  | _, [] => true
  | [], _ :: _ => false
  | a :: as, b :: bs => a = b && charsStartsWith as bs

/-- JS `String.prototype.includes`: substring occurrence. -/
def charsIncludes : List Char → List Char → Bool
  | [], pat => pat.isEmpty
  | a :: as, pat => charsStartsWith (a :: as) pat || charsIncludes as pat

/-- JS `String.prototype.includes` on strings. -/
def stringIncludes (s pat : String) : Bool :=
  charsIncludes s.data pat.data

/-- JS `String.prototype.startsWith`. -/
def jsStartsWith (s pat : String) : Bool :=
  charsStartsWith s.data pat.data

/-- ASCII whitespace, for `String.prototype.trim`. -/
def isTrimWhitespace (c : Char) : Bool :=
  c.toNat = 32 || c.toNat = 9 || c.toNat = 10 || c.toNat = 13 ||
    c.toNat = 11 || c.toNat = 12

/-- JS `String.prototype.trim`. -/
def jsTrim (s : String) : String :=
  ⟨((s.data.dropWhile isTrimWhitespace).reverse.dropWhile isTrimWhitespace).reverse⟩

/-- Lower-casing of one ASCII character (`String.prototype.toLowerCase`
restricted to the ASCII range, which covers every model id involved). -/
def lowerChar (c : Char) : Char :=
  if 65 ≤ c.toNat && c.toNat ≤ 90 then Char.ofNat (c.toNat + 32) else c

/-- JS `String.prototype.toLowerCase` (ASCII). -/
def jsToLower (s : String) : String :=
  ⟨s.data.map lowerChar⟩

/-- JS `String.prototype.split` with a one-character separator. -/
def splitChars (sep : Char) : List Char → List (List Char)
  | [] => [[]]
  | c :: rest =>
    let r := splitChars sep rest
    if c = sep then [] :: r
    else
      match r with
      | h :: t => (c :: h) :: t
      | [] => [[c]]

/-- JS `String.prototype.split` on strings. -/
def jsSplit (s : String) (sep : Char) : List String :=
  (splitChars sep s.data).map fun l => ⟨l⟩

/-- The Gemini 3 thinking levels (`Gemini3ThinkingLevel` in
`antigravity-client.ts`). -/
inductive Gemini3ThinkingLevel where
  | minimal : Gemini3ThinkingLevel
  | low : Gemini3ThinkingLevel
  | medium : Gemini3ThinkingLevel
  | high : Gemini3ThinkingLevel
deriving DecidableEq, Repr

/-- The string interpolated for a thinking level in the request model
id (`trimmed-level`). -/
def Gemini3ThinkingLevel.render : Gemini3ThinkingLevel → String
  | .minimal => "minimal"
  | .low => "low"
  | .medium => "medium"
  | .high => "high"

/-- `mapThinkingEffortToGemini3ThinkingLevel` from
`antigravity-client.ts`. -/
def mapThinkingEffortToGemini3ThinkingLevel (effort : String) :
    Option Gemini3ThinkingLevel :=
  if effort = "minimal" then some .minimal
  else if effort = "low" then some .low
  else if effort = "medium" then some .medium
  else if effort = "high" then some .high
  else if effort = "xhigh" then some .high
  else none

/-- `IMAGE_MODEL_PATTERN.test` — the regex `/image|imagen/i`. -/
def imageModelPatternTest (s : String) : Bool :=
  stringIncludes (jsToLower s) "image" || stringIncludes (jsToLower s) "imagen"

/-- Result of `resolveAntigravityModelForRequest`. -/
structure ResolvedAntigravityModel where
  requestModelId : String
  gemini3ThinkingLevel : Option Gemini3ThinkingLevel
deriving DecidableEq, Repr

/-- `resolveAntigravityModelForRequest` from `antigravity-client.ts`. -/
def resolveAntigravityModelForRequest (modelId : String)
    (preferredGemini3ThinkingLevel : Option Gemini3ThinkingLevel)
    (thinkingEnabled : Bool) : ResolvedAntigravityModel :=
  let trimmed := jsTrim modelId
  let modelLower := jsToLower trimmed
  if stringIncludes modelLower "claude" then
    -- Claude models get a dynamic -thinking suffix
    let isOpus := stringIncludes modelLower "opus"
    let shouldAddThinking := isOpus || thinkingEnabled
    { requestModelId := if shouldAddThinking then trimmed ++ "-thinking" else trimmed
      gemini3ThinkingLevel := none }
  else if !stringIncludes modelLower "gemini-3" then
    { requestModelId := trimmed, gemini3ThinkingLevel := none }
  else
    -- default thinking level for Gemini 3 models is high
    let effectiveLevel := preferredGemini3ThinkingLevel.getD .high
    if jsStartsWith modelLower "gemini-3-pro" then
      let isImageModel := imageModelPatternTest trimmed
      { requestModelId :=
          if isImageModel then trimmed else trimmed ++ "-" ++ effectiveLevel.render
        gemini3ThinkingLevel := some effectiveLevel }
    else
      { requestModelId := trimmed, gemini3ThinkingLevel := some effectiveLevel }

/-- The `thinking` entry of a `ModelConfig`
(`{type, effort?, budgetTokens?}`). -/
structure ThinkingConfig where
  type : String
  effort : Option String
  budgetTokens : Option ℚ
deriving DecidableEq, Repr

/-- The `preferredGemini3ThinkingLevel` computation in the prelude of
`GoogleAntigravityProvider.streamChat`. -/
def preferredGemini3Level (thinking : Option ThinkingConfig) :
    Option Gemini3ThinkingLevel :=
  match thinking with
  | none => none
  | some t =>
    match t.effort with
    | none => none
    | some e =>
      if t.type ≠ "disabled" && e ≠ "" && e ≠ "none" then
        mapThinkingEffortToGemini3ThinkingLevel e
      else none

/-- The `thinkingEnabled` computation in the prelude of
`GoogleAntigravityProvider.streamChat`. -/
def antigravityThinkingEnabled (thinking : Option ThinkingConfig) : Bool :=
  match thinking with
  | none => false
  | some t => t.type = "enabled" || t.type = "auto"

/-- The `generationConfig.thinkingConfig` value the Antigravity adapter
builds (level-based for Gemini 3 models, budget-based otherwise). -/
inductive ThinkingGenConfig where
  | levelBased (includeThoughts : Bool) (thinkingLevel : Gemini3ThinkingLevel) :
      ThinkingGenConfig
  | budgetBased (includeThoughts : Bool) (thinkingBudget : Option ℚ) :
      ThinkingGenConfig
deriving DecidableEq, Repr

/-- The `if (model.thinking) { ... }` block of
`GoogleAntigravityProvider.streamChat` that validates the thinking
budget against `maxOutputTokens`.  `.error` models the thrown
`Error`, which happens before the adapter's `fetcher` call (no request
is ever sent). -/
def buildThinkingGenerationConfig (thinking : Option ThinkingConfig)
    (maxOutputTokens : Option ℚ)
    (gemini3Level : Option Gemini3ThinkingLevel) :
    Except String (Option ThinkingGenConfig) :=
  match thinking with
  | none => .ok none
  | some t =>
    let thinkingDisabled := t.type = "disabled" || t.effort = some "none"
    match gemini3Level with
    | some lvl => .ok (some (.levelBased (!thinkingDisabled) lvl))
    | none =>
      match t.budgetTokens with
      | some budgetTokens =>
        if !thinkingDisabled && decide (0 < budgetTokens) then
          match maxOutputTokens with
          | some m =>
            if m ≤ budgetTokens then
              .error "Invalid thinking config: maxOutputTokens must be greater than thinkingBudget"
            else .ok (some (.budgetBased (!thinkingDisabled) (some budgetTokens)))
          | none => .ok (some (.budgetBased (!thinkingDisabled) (some budgetTokens)))
        else .ok (some (.budgetBased (!thinkingDisabled) none))
      | none => .ok (some (.budgetBased (!thinkingDisabled) none))

/-- The composition of the `streamChat` prelude pieces that decide the
thinking-budget validation: model resolution followed by
generation-config construction.  `requestedModelId` is the id after
`getBaseModelId`.  An `.error` result is an exception thrown before the
network call. -/
def antigravityThinkingGate (requestedModelId : String)
    (thinking : Option ThinkingConfig) (maxOutputTokens : Option ℚ) :
    Except String (Option ThinkingGenConfig) :=
  let resolved := resolveAntigravityModelForRequest requestedModelId
    (preferredGemini3Level thinking) (antigravityThinkingEnabled thinking)
  buildThinkingGenerationConfig thinking maxOutputTokens
    resolved.gemini3ThinkingLevel

/-- JS object entries, in insertion order. -/
abbrev Entries := List (String × Json)

/-- JS property read `o[k]` (association-list lookup). -/
def getEntry : Entries → String → Option Json
  | [], _ => none
  | (k', v) :: rest, k => if k' = k then some v else getEntry rest k

/-- JS `key in o`. -/
def hasKey (entries : Entries) (k : String) : Bool :=
  (getEntry entries k).isSome

/-- JS property assignment `o[k] = v`: updates in place if the key
exists, otherwise appends it. -/
def setEntry : Entries → String → Json → Entries
  | [], k, v => [(k, v)]
  | (k', v') :: rest, k, v =>
    if k' = k then (k', v) :: rest else (k', v') :: setEntry rest k v

/-- JS `delete o[k]`. -/
def eraseEntry : Entries → String → Entries
  | [], _ => []
  | (k', v') :: rest, k =>
    if k' = k then rest else (k', v') :: eraseEntry rest k

/-- The JS spread `\x7b ...base, ...incoming \x7d`. -/
def spreadInto (base incoming : Entries) : Entries :=
  incoming.foldl (fun acc kv => setEntry acc kv.1 kv.2) base

/-- `isRecord` from `antigravity-client.ts` (an object that is neither
`null` nor an array). -/
def isRecord : Json → Bool
  | .obj _ => true
  | _ => false

/-- The entries of a record value, `none` otherwise. -/
def asRecord : Json → Option Entries
  | .obj e => some e
  | _ => none

/-- JS `Set<string>` insertion (insertion order preserved, duplicates
ignored). -/
def insertUnique (l : List String) (s : String) : List String :=
  if l.contains s then l else l ++ [s]

/-- The loop collecting non-empty string members of a `required` array
into a `Set` (`mergeRequired` / `simplifyUnionSchemas`). -/
def addRequired (acc : List String) (items : List Json) : List String :=
  items.foldl
    (fun acc item =>
      match item with
      | .str s => if s ≠ "" then insertUnique acc s else acc
      | _ => acc)
    acc

/-- The `required` members of a variant record as the code's
`requiredSet` (non-empty strings, deduplicated, insertion order). -/
def requiredSetOf (variant : Entries) : List String :=
  match getEntry variant "required" with
  | some (.arr items) => addRequired [] items
  | _ => []

/-- `appendHintToDescription` from `cleanJsonSchemaForAntigravity`. -/
def appendHintToDescription (target : Entries) (hint : String) : Entries :=
  let trimmed := jsTrim hint
  if trimmed = "" then target
  else
    match getEntry target "description" with
    | some (.str existing) =>
      if jsTrim existing ≠ "" then
        setEntry target "description" (.str (jsTrim existing ++ "\n\n" ++ trimmed))
      else setEntry target "description" (.str trimmed)
    | _ => setEntry target "description" (.str trimmed)

/-- `mergeRequired` from `cleanJsonSchemaForAntigravity`: union of the
two `required` arrays (non-empty strings only). -/
def mergeRequired (base incoming : Entries) : Entries :=
  let baseRequired := getEntry base "required"
  let incomingRequired := getEntry incoming "required"
  match baseRequired, incomingRequired with
  | some (.arr baseItems), some (.arr incomingItems) =>
    setEntry base "required" (.arr ((addRequired (addRequired [] baseItems) incomingItems).map .str))
  | some (.arr baseItems), _ =>
    setEntry base "required" (.arr ((addRequired [] baseItems).map .str))
  | _, some (.arr incomingItems) =>
    setEntry base "required" (.arr ((addRequired [] incomingItems).map .str))
  | _, _ => base

/-- `mergeProperties` from `cleanJsonSchemaForAntigravity`: incoming
properties override base ones. -/
def mergeProperties (base incoming : Entries) : Entries :=
  match getEntry incoming "properties" with
  | some (.obj incomingProps) =>
    match getEntry base "properties" with
    | some (.obj baseProps) =>
      setEntry base "properties" (.obj (spreadInto baseProps incomingProps))
    | _ => setEntry base "properties" (.obj incomingProps)
  | _ => base

/-- `mergeSchemas` from `cleanJsonSchemaForAntigravity`: merge `incoming`
into a copy of `base`, with special handling for `properties`,
`required` and `description`, first-wins on other keys. -/
def mergeSchemas (base incoming : Entries) : Entries :=
  incoming.foldl
    (fun merged kv =>
      let (key, value) := kv
      if key = "properties" then mergeProperties merged incoming
      else if key = "required" then mergeRequired merged incoming
      else if key = "description" then
        let existing := getEntry merged "description"
        match value with
        | .str s =>
          if jsTrim s ≠ "" then
            appendHintToDescription merged
              (match existing with
               | some (.str e) => if jsTrim e ≠ "" then s else jsTrim s
               | _ => jsTrim s)
          else merged
        | _ => merged
      else if hasKey merged key then merged
      else setEntry merged key value)
    base

/-- State of the variant loop in `simplifyUnionSchemas`: the merged
properties, the running required-intersection `Set` and the
`requiredInitialized` flag. -/
structure UnionLoopState where
  mergedProperties : Entries
  requiredIntersection : List String
  requiredInitialized : Bool

/-- One iteration of the variant loop of `simplifyUnionSchemas`. -/
def unionLoopStep (st : UnionLoopState) (variant : Entries) : UnionLoopState :=
  let mergedProperties :=
    match getEntry variant "properties" with
    | some (.obj variantProps) =>
      variantProps.foldl
        (fun acc kv =>
          if !hasKey acc kv.1 then setEntry acc kv.1 kv.2 else acc)
        st.mergedProperties
    | _ => st.mergedProperties
  let requiredSet := requiredSetOf variant
  if !st.requiredInitialized then
    { mergedProperties
      requiredIntersection := requiredSet.foldl insertUnique st.requiredIntersection
      requiredInitialized := true }
  else
    { mergedProperties
      requiredIntersection := st.requiredIntersection.filter (fun item => requiredSet.contains item)
      requiredInitialized := true }

/-- `simplifyUnionSchemas` from `cleanJsonSchemaForAntigravity`,
parametric in the ambient `clean` closure.  Returns the record produced
for the union key (`anyOf` or `oneOf`). -/
def simplifyUnionSchemasP (cleanFn : Json → Json) (unionKey : String)
    (schemaRecord : Entries) (variants : List Json) : Json :=
  let stripped := eraseEntry schemaRecord unionKey
  let cleanedVariants := (variants.map cleanFn).filterMap asRecord
  match cleanedVariants with
  | [] =>
    .obj (appendHintToDescription stripped
      (unionKey ++ " present but could not be normalized; falling back to generic object schema."))
  | [v] => cleanFn (.obj (mergeSchemas stripped v))
  | _ :: _ :: _ =>
    let loop := cleanedVariants.foldl unionLoopStep ⟨[], [], false⟩
    let merged := stripped
    let merged :=
      if !loop.mergedProperties.isEmpty then
        setEntry merged "properties" (.obj loop.mergedProperties)
      else merged
    let merged :=
      if !loop.requiredIntersection.isEmpty then
        setEntry merged "required" (.arr (loop.requiredIntersection.map .str))
      else merged
    .obj (appendHintToDescription merged
      (unionKey ++ " simplified for Antigravity tool schema compatibility ("
        ++ toString cleanedVariants.length ++ " variants)."))

/-- The keys stripped unconditionally by the keyword loop of `clean`. -/
def strippedKeys : List String :=
  ["$schema", "$id", "$defs", "definitions", "$comment", "default",
   "examples", "title", "readOnly", "writeOnly", "deprecated"]

set_option maxHeartbeats 2000000 in
/-- The `clean` closure of `cleanJsonSchemaForAntigravity`.  The `fuel`
argument models the JS call stack (each recursive `clean` call consumes
one unit); with fuel exceeding the nesting depth of the input the
results agree with the source. -/
def cleanGo (rootDefs rootDefinitions : Option Entries) : ℕ → Json → Json
  | 0, value => value
  | fuel + 1, value =>
    match value with
    | .arr items => .arr (items.map (cleanGo rootDefs rootDefinitions fuel))
    | .null | .bool _ | .num _ | .str _ => value
    | .obj entries =>
      -- $ref resolution against the root $defs / definitions
      let refResult : Option Json :=
        match getEntry entries "$ref" with
        | some (.str ref) =>
          if jsStartsWith ref "#/" then
            let parts := jsSplit ref (Char.ofNat 47)
            let store :=
              if parts.get? 1 = some "$defs" then rootDefs
              else if parts.get? 1 = some "definitions" then rootDefinitions
              else none
            let resolved :=
              match store, parts.get? 2 with
              | some st, some key => getEntry st key
              | _, _ => none
            match resolved with
            | some res =>
              let merged := eraseEntry entries "$ref"
              match cleanGo rootDefs rootDefinitions fuel res with
              | .obj cr =>
                some (cleanGo rootDefs rootDefinitions fuel (.obj (spreadInto cr merged)))
              | other => some (cleanGo rootDefs rootDefinitions fuel other)
            | none => none
          else none
        | _ => none
      match refResult with
      | some r => r
      | none =>
        match getEntry entries "allOf" with
        | some (.arr (a :: as)) =>
          -- flatten allOf by iterated mergeSchemas
          let merged :=
            (a :: as).foldl
              (fun m item =>
                match cleanGo rootDefs rootDefinitions fuel item with
                | .obj cl => mergeSchemas m cl
                | _ => m)
              (eraseEntry entries "allOf")
          cleanGo rootDefs rootDefinitions fuel (.obj merged)
        | _ =>
          match getEntry entries "anyOf" with
          | some (.arr (a :: as)) =>
            cleanGo rootDefs rootDefinitions fuel
              (simplifyUnionSchemasP (cleanGo rootDefs rootDefinitions fuel) "anyOf"
                entries (a :: as))
          | _ =>
            match getEntry entries "oneOf" with
            | some (.arr (a :: as)) =>
              cleanGo rootDefs rootDefinitions fuel
                (simplifyUnionSchemasP (cleanGo rootDefs rootDefinitions fuel) "oneOf"
                  entries (a :: as))
            | _ =>
              -- keyword-stripping loop
              let out := entries.foldl
                (fun out kv =>
                  let (k, v) := kv
                  if strippedKeys.contains k then out
                  else if k = "$ref" then out
                  else if k = "const" then
                    match getEntry out "enum" with
                    | some (.arr _) => out
                    | _ => setEntry out "enum" (.arr [cleanGo rootDefs rootDefinitions fuel v])
                  else if k = "additionalProperties" || k = "patternProperties"
                      || k = "unevaluatedProperties" then
                    match v with
                    | .bool b =>
                      appendHintToDescription out
                        (k ++ ": " ++ (if b then "allowed" else "disallowed") ++ ".")
                    | .obj _ =>
                      appendHintToDescription out (k ++ ": schema present (simplified).")
                    | _ => out
                  else setEntry out k (cleanGo rootDefs rootDefinitions fuel v))
                []
              -- prune required entries that name no declared property
              let out :=
                match getEntry out "properties", getEntry out "required" with
                | some (.obj props), some (.arr requiredRaw) =>
                  let propertyNames := props.map Prod.fst
                  let validRequired := requiredRaw.filterMap
                    (fun p =>
                      match p with
                      | .str s =>
                        if propertyNames.contains s then some (Json.str s) else none
                      | _ => none)
                  if !validRequired.isEmpty then setEntry out "required" (.arr validRequired)
                  else eraseEntry out "required"
                | _, _ => out
              -- arrays need an items schema
              let out :=
                match getEntry out "type" with
                | some (.str t) =>
                  if jsToLower t = "array" && (getEntry out "items").isNone then
                    setEntry out "items" (.obj [("type", .str "string")])
                  else out
                | _ => out
              .obj out

/-- `cleanJsonSchemaForAntigravity` from `antigravity-client.ts`. -/
def cleanJsonSchemaForAntigravity (fuel : ℕ) (schema : Json) : Json :=
  let rootRecord := asRecord schema
  let rootDefs :=
    match rootRecord with
    | some e =>
      match getEntry e "$defs" with
      | some (.obj d) => some d
      | _ => none
    | none => none
  let rootDefinitions :=
    match rootRecord with
    | some e =>
      match getEntry e "definitions" with
      | some (.obj d) => some d
      | _ => none
    | none => none
  match cleanGo rootDefs rootDefinitions fuel schema with
  | .obj e => .obj (eraseEntry (eraseEntry e "$defs") "definitions")
  | other => other

end Antigravity

namespace ModelId

/-!
The dispatch service's composite model ids
(`createModelId` / `parseModelId` / `encodeProviderName` /
`decodeProviderName`), together with models of the platform
`encodeURIComponent` / `decodeURIComponent` (percent-encoding of the
UTF-8 bytes of every character outside the unreserved set).
-/

/-- The characters `encodeURIComponent` leaves unencoded:
ASCII letters, digits, and `- _ . ! ~ *` , the apostrophe and the two
parentheses (code points listed explicitly). -/
def isUnreservedChar (c : Char) : Bool :=
  let n := c.toNat
  (65 ≤ n && n ≤ 90) || (97 ≤ n && n ≤ 122) || (48 ≤ n && n ≤ 57) ||
    n = 45 || n = 95 || n = 46 || n = 33 || n = 126 || n = 42 ||
    n = 39 || n = 40 || n = 41

/-- UTF-8 encoding of a Unicode scalar value (1–4 bytes). -/
def utf8EncodeNat (n : ℕ) : List ℕ :=
  if n < 128 then [n]
  else if n < 2048 then [192 + n / 64, 128 + n % 64]
  else if n < 65536 then [224 + n / 4096, 128 + n / 64 % 64, 128 + n % 64]
  else [240 + n / 262144, 128 + n / 4096 % 64, 128 + n / 64 % 64, 128 + n % 64]

/-- UTF-8 bytes of a character. -/
def utf8EncodeChar (c : Char) : List ℕ :=
  utf8EncodeNat c.toNat

/-- Uppercase hexadecimal digit, as emitted by `encodeURIComponent`. -/
def hexDigit : ℕ → Char
  | 0 => '0' | 1 => '1' | 2 => '2' | 3 => '3' | 4 => '4'
  | 5 => '5' | 6 => '6' | 7 => '7' | 8 => '8' | 9 => '9'
  | 10 => 'A' | 11 => 'B' | 12 => 'C' | 13 => 'D' | 14 => 'E'
  | 15 => 'F' | _ => '0'

/-- Value of a hexadecimal digit (either case), as accepted by
`decodeURIComponent`. -/
def hexVal (c : Char) : Option ℕ :=
  let n := c.toNat
  if 48 ≤ n && n ≤ 57 then some (n - 48)
  else if 65 ≤ n && n ≤ 70 then some (n - 55)
  else if 97 ≤ n && n ≤ 102 then some (n - 87)
  else none

/-- A percent-escape `%XY` for one byte. -/
def percentEncodeByte (b : ℕ) : List Char :=
  ['%', hexDigit (b / 16), hexDigit (b % 16)]

/-- `encodeURIComponent` on one character. -/
def encodeURIComponentChar (c : Char) : List Char :=
  if isUnreservedChar c then [c] else (utf8EncodeChar c).flatMap percentEncodeByte

/-- The platform `encodeURIComponent`. -/
def encodeURIComponent (s : String) : String :=
  ⟨s.data.flatMap encodeURIComponentChar⟩

/-- Percent-decoding layer of `decodeURIComponent`: each `%XY` escape
contributes the byte `XY`; an unescaped character contributes its own
UTF-8 bytes.  `none` models a thrown `URIError` (malformed escape). -/
def percentDecodeBytes : List Char → Option (List ℕ)
  | [] => some []
  | c :: rest =>
    if c = '%' then
      match rest with
      | h1 :: h2 :: rest' =>
        match hexVal h1, hexVal h2 with
        | some a, some b => (percentDecodeBytes rest').map (fun bs => (a * 16 + b) :: bs)
        | _, _ => none
      | _ => none
    else (percentDecodeBytes rest).map (fun bs => utf8EncodeChar c ++ bs)

/-- UTF-8 decoding of a byte sequence, rejecting malformed sequences
(invalid leads, bad continuations, overlong forms, surrogates,
out-of-range values).  `none` models a thrown `URIError`.  Each decoded
character consumes one unit of fuel and at least one byte, so
`utf8Decode` below — which supplies the byte count as fuel — never runs
out. -/
def utf8DecodeGo : ℕ → List ℕ → Option (List Char)
  | _, [] => some []
  | 0, _ :: _ => none
  | fuel + 1, b :: rest =>
    if b < 128 then (utf8DecodeGo fuel rest).map (fun cs => Char.ofNat b :: cs)
    else if b < 194 then none
    else if b < 224 then
      let b2 := rest.headD 0
      if 128 ≤ b2 && b2 < 192 then
        (utf8DecodeGo fuel (rest.drop 1)).map
          (fun cs => Char.ofNat ((b - 192) * 64 + (b2 - 128)) :: cs)
      else none
    else if b < 240 then
      let b2 := rest.headD 0
      let b3 := (rest.drop 1).headD 0
      if (128 ≤ b2 && b2 < 192) && (128 ≤ b3 && b3 < 192) then
        let n := (b - 224) * 4096 + (b2 - 128) * 64 + (b3 - 128)
        if n < 2048 then none
        else if 55296 ≤ n && n ≤ 57343 then none
        else (utf8DecodeGo fuel (rest.drop 2)).map (fun cs => Char.ofNat n :: cs)
      else none
    else if b < 245 then
      let b2 := rest.headD 0
      let b3 := (rest.drop 1).headD 0
      let b4 := (rest.drop 2).headD 0
      if (128 ≤ b2 && b2 < 192) && (128 ≤ b3 && b3 < 192) && (128 ≤ b4 && b4 < 192) then
        let n := (b - 240) * 262144 + (b2 - 128) * 4096 + (b3 - 128) * 64 + (b4 - 128)
        if n < 65536 then none
        else if 1114111 < n then none
        else (utf8DecodeGo fuel (rest.drop 3)).map (fun cs => Char.ofNat n :: cs)
      else none
    else none

/-- UTF-8 decoding of a byte sequence. -/
def utf8Decode (l : List ℕ) : Option (List Char) :=
  utf8DecodeGo l.length l

/-- The platform `decodeURIComponent` (`none` models a thrown
`URIError`). -/
def decodeURIComponent (s : String) : Option String :=
  ((percentDecodeBytes s.data).bind utf8Decode).map fun cs => ⟨cs⟩

/-- `encodeProviderName` from the dispatch service. -/
def encodeProviderName (name : String) : String :=
  encodeURIComponent name

/-- `decodeProviderName` from the dispatch service (`try`/`catch`
returning `null` on a decode failure). -/
def decodeProviderName (encodedName : String) : Option String :=
  decodeURIComponent encodedName

/-- `createModelId` from the dispatch service. -/
def createModelId (providerName modelId : String) : String :=
  encodeProviderName providerName ++ "/" ++ modelId

/-- Result of `parseModelId`. -/
structure ParsedModelId where
  providerName : String
  modelName : String
deriving DecidableEq, Repr

/-- Split a character list at the first occurrence of `sep`
(JS `indexOf` + the two `slice` calls of `parseModelId`);
`none` when `sep` does not occur. -/
def splitAtFirst (sep : Char) : List Char → Option (List Char × List Char)
  | [] => none
  | c :: rest =>
    if c = sep then some ([], rest)
    else (splitAtFirst sep rest).map (fun p => (c :: p.1, p.2))

/-- `parseModelId` from the dispatch service. -/
def parseModelId (modelId : String) : Option ParsedModelId :=
  match splitAtFirst '/' modelId.data with
  | none => none
  | some (before, after) => some ⟨⟨before⟩, ⟨after⟩⟩

end ModelId

/-!
## Claims

One theorem per claim (with witnesses for theorems that carry
hypotheses, and counterexamples for corrected claims).
-/

/-- C5: tool-choice resolution.  With thinking enabled, `Required` maps
to `{type: auto}` and every other mode to `undefined`; with thinking
disabled, `Required` with exactly one tool forces that tool by name,
with two or more tools maps to `{type: any}`, and with zero (or absent)
tools throws a synchronous error — `convertToolChoice` is evaluated in
`streamChat` before the `fetch` call, so the exception propagates before
any network request. -/
theorem C5_convertToolChoice (tools : Option (List AnthropicAdapter.AnthropicToolUnion)) :
    (AnthropicAdapter.convertToolChoice .Required tools true = .ok (some .auto)) ∧
    (∀ mode, mode ≠ AnthropicAdapter.ToolMode.Required →
      AnthropicAdapter.convertToolChoice mode tools true = .ok none) ∧
    (∀ t, AnthropicAdapter.convertToolChoice .Required (some [t]) false
      = .ok (some (.tool t.name))) ∧
    (∀ t₁ t₂ ts,
      AnthropicAdapter.convertToolChoice .Required (some (t₁ :: t₂ :: ts)) false
      = .ok (some .any)) ∧
    (AnthropicAdapter.convertToolChoice .Required none false
      = .error "Tool mode is set to Required but no tools are provided") ∧
    (AnthropicAdapter.convertToolChoice .Required (some []) false
      = .error "Tool mode is set to Required but no tools are provided") := by
  refine ⟨rfl, ?_, fun _ => rfl, fun _ _ _ => rfl, rfl, rfl⟩
  intro mode h
  cases mode with
  | Auto => rfl
  | Required => exact absurd rfl h

/-- Witness for C5 at a concrete mode and tool list. -/
theorem C5_convertToolChoice_witness :
    AnthropicAdapter.ToolMode.Auto ≠ AnthropicAdapter.ToolMode.Required ∧
    AnthropicAdapter.convertToolChoice .Auto (some [⟨"search"⟩]) true = .ok none :=
  ⟨by decide, (C5_convertToolChoice (some [⟨"search"⟩])).2.1 .Auto (by decide)⟩

/-- C3: on a `content_block_stop` for a tool-use block, the accumulator
performs a final parse — with "\x7b\x7d" substituted when the buffer is
empty — emits a `tool_call` part exactly when that parse succeeds, and in
all cases deletes the accumulator entry (so it cannot affect later
blocks); in particular an empty buffer yields a tool call with the
empty-object input. -/
theorem C3_toolCallStop {J : Type} (jparse : String → Option J)
    (st : SSE.SSEState) (tc : SSE.ToolCallState)
    (h : st.currentToolCall = some tc) :
    (SSE.processEvent jparse st .contentBlockStop
      = ({ st with currentToolCall := none },
         match jparse (if tc.inputJson = "" then "\x7b\x7d" else tc.inputJson) with
         | some input => [SSE.ResponsePart.toolCall tc.id tc.name input]
         | none => [])) ∧
    (∀ emptyObj, jparse "\x7b\x7d" = some emptyObj → tc.inputJson = "" →
      SSE.processEvent jparse st .contentBlockStop
        = ({ st with currentToolCall := none },
           [SSE.ResponsePart.toolCall tc.id tc.name emptyObj])) := by
  constructor
  · simp only [SSE.processEvent, h]
  · intro emptyObj hparse hbuf
    simp [SSE.processEvent, h, hbuf, hparse]

/-- Witness for C3: an empty buffer at block stop emits the
empty-object tool call and clears the entry. -/
theorem C3_toolCallStop_witness :
    ({ SSE.initState with currentToolCall := some ⟨"t1", "search", ""⟩ }
        : SSE.SSEState).currentToolCall = some ⟨"t1", "search", ""⟩ ∧
    SSE.processEvent SSE.jsonParseSample
      { SSE.initState with currentToolCall := some ⟨"t1", "search", ""⟩ }
      .contentBlockStop
      = (SSE.initState, [SSE.ResponsePart.toolCall "t1" "search" (Json.obj [])]) :=
  ⟨rfl,
    (C3_toolCallStop SSE.jsonParseSample
      { SSE.initState with currentToolCall := some ⟨"t1", "search", ""⟩ }
      ⟨"t1", "search", ""⟩ rfl).2 (Json.obj []) rfl rfl⟩

/-- C7: the backoff delay equals
`round(min(maxDelay, initialDelay * multiplier^attempt) + jitter)` with
`jitter = (2*rand - 1) * (jitterFactor * cappedDelay)`; with the default
configuration every per-attempt wait lies between
`initialDelay * (1 - jitter) = 900` and `maxDelay * (1 + jitter) = 66000`
milliseconds, and a server answering 503 twice and then 200 makes
`fetchWithRetry` return the 200 response. -/
theorem C7_backoffDelay (attempt : ℕ) (rand : ℚ)
    (h0 : 0 ≤ rand) (h1 : rand ≤ 1) :
    (∀ config : Retry.BackoffConfig,
      Retry.calculateBackoffDelay attempt config rand =
        round (min (config.initialDelayMs * config.backoffMultiplier ^ attempt) config.maxDelayMs
          + (rand * 2 - 1)
            * (min (config.initialDelayMs * config.backoffMultiplier ^ attempt) config.maxDelayMs
                * config.jitterFactor))) ∧
    (900 ≤ Retry.calculateBackoffDelay attempt Retry.DEFAULT_RETRY_CONFIG rand ∧
      Retry.calculateBackoffDelay attempt Retry.DEFAULT_RETRY_CONFIG rand ≤ 66000) ∧
    (Retry.fetchWithRetry
        (fun n => if n < 2 then .response ⟨503⟩ else .response ⟨200⟩) 10).result
      = .returned ⟨200⟩ := by
  refine ⟨fun config => rfl, ?_, rfl⟩
  have hpow : (1 : ℚ) ≤ 2 ^ attempt := one_le_pow₀ (by norm_num)
  have hc1 : (1000 : ℚ) ≤ min ((1000 : ℚ) * 2 ^ attempt) 60000 := by
    refine le_min (by nlinarith) (by norm_num)
  have hc2 : min ((1000 : ℚ) * 2 ^ attempt) 60000 ≤ 60000 := min_le_right _ _
  set c := min ((1000 : ℚ) * 2 ^ attempt) 60000 with hcdef
  have hval : Retry.calculateBackoffDelay attempt Retry.DEFAULT_RETRY_CONFIG rand
      = round (c + (rand * 2 - 1) * (c * (1 / 10))) := by
    show round _ = _
    norm_num [Retry.DEFAULT_RETRY_CONFIG, hcdef]
  have hlow : (900 : ℚ) ≤ c + (rand * 2 - 1) * (c * (1 / 10)) := by nlinarith
  have hhigh : c + (rand * 2 - 1) * (c * (1 / 10)) ≤ 66000 := by nlinarith
  rw [hval, round_eq]
  constructor
  · rw [Int.le_floor]
    push_cast
    linarith
  · have : (⌊c + (rand * 2 - 1) * (c * (1 / 10)) + 1 / 2⌋ : ℤ) < 66001 := by
      rw [Int.floor_lt]
      push_cast
      linarith
    omega

/-- Witness for C7 at a concrete attempt and random draw. -/
theorem C7_backoffDelay_witness :
    (0 : ℚ) ≤ 1 / 2 ∧ (1 / 2 : ℚ) ≤ 1 ∧
    (900 ≤ Retry.calculateBackoffDelay 3 Retry.DEFAULT_RETRY_CONFIG (1 / 2) ∧
      Retry.calculateBackoffDelay 3 Retry.DEFAULT_RETRY_CONFIG (1 / 2) ≤ 66000) :=
  ⟨by norm_num, by norm_num,
    (C7_backoffDelay 3 (1 / 2) (by norm_num) (by norm_num)).2.1⟩

/-- C8 (amended): in the Antigravity adapter, when thinking is
configured and not disabled, the configured budget is finite and
positive, `maxOutputTokens` is configured, the budget is at least
`maxOutputTokens`, and the resolved model does not use the Gemini 3
thinking-level path, `streamChat` throws a synchronous error while
building `generationConfig` — before its `fetcher` call, so no request
body is ever sent. -/
theorem C8_thinkingBudgetGate (requestedModelId : String)
    (t : Antigravity.ThinkingConfig) (b m : ℚ)
    (htype : t.type ≠ "disabled") (heffort : t.effort ≠ some "none")
    (hbudget : t.budgetTokens = some b) (hpos : 0 < b) (hmax : m ≤ b)
    (hlevel : (Antigravity.resolveAntigravityModelForRequest requestedModelId
        (Antigravity.preferredGemini3Level (some t))
        (Antigravity.antigravityThinkingEnabled (some t))).gemini3ThinkingLevel = none) :
    Antigravity.antigravityThinkingGate requestedModelId (some t) (some m)
      = .error "Invalid thinking config: maxOutputTokens must be greater than thinkingBudget" := by
  unfold Antigravity.antigravityThinkingGate Antigravity.buildThinkingGenerationConfig
  simp only [hlevel, hbudget]
  simp [htype, heffort, hpos, hmax]

/-- Witness for C8 at a concrete non-Gemini-3 model. -/
theorem C8_thinkingBudgetGate_witness :
    Antigravity.antigravityThinkingGate "claude-sonnet-4"
      (some ⟨"enabled", none, some 5000⟩) (some 100)
      = .error "Invalid thinking config: maxOutputTokens must be greater than thinkingBudget" :=
  C8_thinkingBudgetGate "claude-sonnet-4" ⟨"enabled", none, some 5000⟩ 5000 100
    (by decide) (by decide) rfl (by norm_num) (by norm_num) rfl

/-- Counterexample to C8 as stated: for a Gemini 3 model the Antigravity
adapter ignores the configured budget entirely — thinking is enabled,
the budget (5000) is not below `maxOutputTokens` (100), and yet no error
is raised; the request proceeds with a level-based thinking config. -/
theorem C8_counterexample :
    Antigravity.antigravityThinkingGate "gemini-3-flash"
      (some ⟨"enabled", none, some 5000⟩) (some 100)
      = .ok (some (.levelBased true .high)) ∧ (100 : ℚ) ≤ 5000 :=
  ⟨rfl, by norm_num⟩

namespace AnthropicAdapter

/-- The merge step preserves the adjacent-roles-differ invariant of the
(reversed) accumulator. -/
theorem chain_mergeStep (acc : List AnthropicMessage) (m : AnthropicMessage)
    (h : List.Chain' (fun a b => a.role ≠ b.role) acc) :
    List.Chain' (fun a b => a.role ≠ b.role) (mergeStep acc m) := by
  cases acc with
  | nil => simp [mergeStep]
  | cons last prev =>
    show List.Chain' (fun a b => a.role ≠ b.role)
      (if last.role = m.role then
        { last with content := last.content ++ m.content } :: prev
      else m :: last :: prev)
    by_cases hr : last.role = m.role
    · rw [if_pos hr]
      cases prev with
      | nil => simp
      | cons p ps =>
        rw [List.chain'_cons] at h ⊢
        exact ⟨h.1, h.2⟩
    · simp only [if_neg hr]
      rw [List.chain'_cons]
      exact ⟨fun hmr => hr hmr.symm, h⟩

/-- The merge fold preserves the adjacent-roles-differ invariant. -/
theorem chain_foldl_mergeStep (msgs : List AnthropicMessage)
    (acc : List AnthropicMessage)
    (h : List.Chain' (fun a b => a.role ≠ b.role) acc) :
    List.Chain' (fun a b => a.role ≠ b.role) (msgs.foldl mergeStep acc) := by
  induction msgs generalizing acc with
  | nil => exact h
  | cons m ms ih => exact ih _ (chain_mergeStep acc m h)

/-- Merged messages have pairwise-distinct adjacent roles. -/
theorem chain_mergeMessages (msgs : List AnthropicMessage) :
    List.Chain' (fun a b => a.role ≠ b.role) (mergeMessages msgs) := by
  unfold mergeMessages
  rw [List.chain'_reverse]
  exact (chain_foldl_mergeStep msgs [] (by simp)).imp fun a b hab => Ne.symm hab

end AnthropicAdapter

/-- C1: after the merge pass of `ensureAlternatingRoles` no two
consecutive messages share a role; a non-empty result starts with a
`user` message; and when the first merged message is not from the user,
the synthetic `user` message with single content part `text "..."` is
prepended. -/
theorem C1_ensureAlternatingRoles (messages : List AnthropicAdapter.AnthropicMessage) :
    List.Chain' (fun a b => a.role ≠ b.role)
      (AnthropicAdapter.ensureAlternatingRoles messages) ∧
    (∀ m ms, AnthropicAdapter.ensureAlternatingRoles messages = m :: ms →
      m.role = AnthropicAdapter.Role.user) ∧
    (∀ m ms, AnthropicAdapter.mergeMessages messages = m :: ms →
      m.role ≠ AnthropicAdapter.Role.user →
      AnthropicAdapter.ensureAlternatingRoles messages
        = AnthropicAdapter.syntheticUserMessage :: m :: ms) := by
  have hch := AnthropicAdapter.chain_mergeMessages messages
  refine ⟨?_, ?_, ?_⟩
  · unfold AnthropicAdapter.ensureAlternatingRoles
    cases messages with
    | nil => simp
    | cons a as =>
      simp only [List.isEmpty_cons, Bool.false_eq_true, if_false]
      rcases hm : AnthropicAdapter.mergeMessages (a :: as) with _ | ⟨first, rest⟩
      · simp
      · rw [hm] at hch
        by_cases hfr : first.role = AnthropicAdapter.Role.user
        · simp only [hfr, ne_eq, not_true_eq_false, if_neg, ite_false]
          simpa using hch
        · simp only [ne_eq, hfr, not_false_eq_true, if_true, ite_true]
          rw [List.chain'_cons]
          refine ⟨?_, hch⟩
          show AnthropicAdapter.Role.user ≠ first.role
          cases h : first.role
          · exact absurd h hfr
          · simp
  · intro m ms hres
    unfold AnthropicAdapter.ensureAlternatingRoles at hres
    cases messages with
    | nil => simp at hres
    | cons a as =>
      simp only [List.isEmpty_cons, Bool.false_eq_true, if_false] at hres
      rcases hm : AnthropicAdapter.mergeMessages (a :: as) with _ | ⟨first, rest⟩
      · rw [hm] at hres; simp at hres
      · rw [hm] at hres
        by_cases hfr : first.role = AnthropicAdapter.Role.user
        · simp only [hfr, ne_eq, not_true_eq_false, ite_false] at hres
          cases hres
          exact hfr
        · simp only [ne_eq, hfr, not_false_eq_true, ite_true] at hres
          cases hres
          rfl
  · intro m ms hm hrole
    unfold AnthropicAdapter.ensureAlternatingRoles
    cases messages with
    | nil => simp [AnthropicAdapter.mergeMessages] at hm
    | cons a as =>
      simp only [List.isEmpty_cons, Bool.false_eq_true, if_false]
      rw [hm]
      simp [hrole]

/-- Witness for C1: an assistant-first conversation gets the synthetic
`user` placeholder prepended. -/
theorem C1_ensureAlternatingRoles_witness :
    AnthropicAdapter.mergeMessages [⟨.assistant, [.text "hi"]⟩]
      = [⟨.assistant, [.text "hi"]⟩] ∧
    AnthropicAdapter.ensureAlternatingRoles [⟨.assistant, [.text "hi"]⟩]
      = [AnthropicAdapter.syntheticUserMessage, ⟨.assistant, [.text "hi"]⟩] :=
  ⟨rfl,
    (C1_ensureAlternatingRoles [⟨.assistant, [.text "hi"]⟩]).2.2
      ⟨.assistant, [.text "hi"]⟩ [] rfl (by decide)⟩

namespace Retry

/-- An outcome that makes the retry loop continue: an HTTP response that
is not ok and has a retryable status code. -/
def retryableResponse (o : FetchOutcome) : Prop :=
  ∃ r, o = .response r ∧ r.ok = false ∧ isRetryableStatusCode r.status = true

/-- Running the loop over `n` retryable outcomes followed by a
non-retryable (or ok) response returns that response after `n + 1`
fetches, sleeping only after the retryable attempts. -/
theorem go_terminal_response (fetchAt : ℕ → FetchOutcome) (maxRetries : ℕ)
    (r : Response) (hr : (r.ok || !isRetryableStatusCode r.status) = true) :
    ∀ n fuel a (last : Option Response),
      (∀ k < n, retryableResponse (fetchAt (a + k))) →
      fetchAt (a + n) = .response r →
      n < fuel → a + fuel = maxRetries + 1 →
      fetchWithRetryGo fetchAt maxRetries fuel a last
        = ⟨.returned r, n + 1, List.range' a n⟩ := by
  intro n
  induction n with
  | zero =>
    intro fuel a last _ hterm hfuel _
    obtain ⟨fuel', rfl⟩ : ∃ f', fuel = f' + 1 := ⟨fuel - 1, by omega⟩
    rw [show a + 0 = a from rfl] at hterm
    simp only [fetchWithRetryGo, hterm, hr, if_true, List.range']
  | succ n ih =>
    intro fuel a last hn hterm hfuel hinv
    obtain ⟨fuel', rfl⟩ : ∃ f', fuel = f' + 1 := ⟨fuel - 1, by omega⟩
    obtain ⟨r0, hro, hok, hretry⟩ := hn 0 (by omega)
    rw [show a + 0 = a from rfl] at hro
    simp only [fetchWithRetryGo, hro]
    rw [if_neg (by simp [hok, hretry])]
    have hrest := ih fuel' (a + 1) (some r0)
      (fun k hk => by
        have := hn (k + 1) (by omega)
        rwa [show a + (k + 1) = a + 1 + k by omega] at this)
      (by rwa [show a + 1 + n = a + (n + 1) by omega])
      (by omega) (by omega)
    rw [hrest]
    have ha : a < maxRetries := by omega
    simp [ha, List.range']

/-- Running the loop over `n` retryable outcomes followed by a thrown
network failure propagates the failure after `n + 1` fetches, with no
retry and no sleep after it. -/
theorem go_terminal_failure (fetchAt : ℕ → FetchOutcome) (maxRetries : ℕ)
    (e : String) :
    ∀ n fuel a (last : Option Response),
      (∀ k < n, retryableResponse (fetchAt (a + k))) →
      fetchAt (a + n) = .failure e →
      n < fuel → a + fuel = maxRetries + 1 →
      fetchWithRetryGo fetchAt maxRetries fuel a last
        = ⟨.threw e, n + 1, List.range' a n⟩ := by
  intro n
  induction n with
  | zero =>
    intro fuel a last _ hterm hfuel _
    obtain ⟨fuel', rfl⟩ : ∃ f', fuel = f' + 1 := ⟨fuel - 1, by omega⟩
    rw [show a + 0 = a from rfl] at hterm
    simp only [fetchWithRetryGo, hterm, List.range']
  | succ n ih =>
    intro fuel a last hn hterm hfuel hinv
    obtain ⟨fuel', rfl⟩ : ∃ f', fuel = f' + 1 := ⟨fuel - 1, by omega⟩
    obtain ⟨r0, hro, hok, hretry⟩ := hn 0 (by omega)
    rw [show a + 0 = a from rfl] at hro
    simp only [fetchWithRetryGo, hro]
    rw [if_neg (by simp [hok, hretry])]
    have hrest := ih fuel' (a + 1) (some r0)
      (fun k hk => by
        have := hn (k + 1) (by omega)
        rwa [show a + (k + 1) = a + 1 + k by omega] at this)
      (by rwa [show a + 1 + n = a + (n + 1) by omega])
      (by omega) (by omega)
    rw [hrest]
    have ha : a < maxRetries := by omega
    simp [ha, List.range']

/-- When every attempt yields a retryable response, the loop exhausts
its `fuel` and returns the response of the final attempt. -/
theorem go_exhausted (fetchAt : ℕ → FetchOutcome) (maxRetries : ℕ)
    (rlast : Response) :
    ∀ fuel a (last : Option Response),
      (∀ k < fuel, retryableResponse (fetchAt (a + k))) →
      fetchAt maxRetries = .response rlast →
      0 < fuel → a + fuel = maxRetries + 1 →
      fetchWithRetryGo fetchAt maxRetries fuel a last
        = ⟨.returned rlast, fuel, List.range' a (fuel - 1)⟩ := by
  intro fuel
  induction fuel with
  | zero => intro a last _ _ h0 _; omega
  | succ fuel' ih =>
    intro a last hn hlast h0 hinv
    obtain ⟨r0, hro, hok, hretry⟩ := hn 0 (by omega)
    rw [show a + 0 = a from rfl] at hro
    simp only [fetchWithRetryGo, hro]
    rw [if_neg (by simp [hok, hretry])]
    cases fuel' with
    | zero =>
      have ha : a = maxRetries := by omega
      rw [ha] at hro
      rw [hro] at hlast
      cases hlast
      have hanot : ¬ a < maxRetries := by omega
      simp [fetchWithRetryGo, hanot, List.range']
    | succ fuel'' =>
      have hrest := ih (a + 1) (some r0)
        (fun k hk => by
          have := hn (k + 1) (by omega)
          rwa [show a + (k + 1) = a + 1 + k by omega] at this)
        hlast (by omega) (by omega)
      rw [hrest]
      have ha : a < maxRetries := by omega
      simp [ha, List.range']

end Retry

/-- C6: `fetchWithRetry` returns immediately — no sleep, no further
fetch — on the first response that is ok or has a non-retryable status;
a thrown network-level failure (including abort) propagates immediately
with no retry; and when every attempt up to the retry limit is
retryable, the last retryable response object itself is returned rather
than an error. -/
theorem C6_fetchWithRetry (fetchAt : ℕ → Retry.FetchOutcome) (maxRetries n : ℕ) :
    (∀ r : Retry.Response,
      (∀ k < n, Retry.retryableResponse (fetchAt k)) → n ≤ maxRetries →
      fetchAt n = .response r →
      (r.ok || !Retry.isRetryableStatusCode r.status) = true →
      Retry.fetchWithRetry fetchAt maxRetries
        = ⟨.returned r, n + 1, List.range n⟩) ∧
    (∀ e : String,
      (∀ k < n, Retry.retryableResponse (fetchAt k)) → n ≤ maxRetries →
      fetchAt n = .failure e →
      Retry.fetchWithRetry fetchAt maxRetries
        = ⟨.threw e, n + 1, List.range n⟩) ∧
    (∀ rlast : Retry.Response,
      (∀ k ≤ maxRetries, Retry.retryableResponse (fetchAt k)) →
      fetchAt maxRetries = .response rlast →
      Retry.fetchWithRetry fetchAt maxRetries
        = ⟨.returned rlast, maxRetries + 1, List.range maxRetries⟩) := by
  refine ⟨?_, ?_, ?_⟩
  · intro r hn hle hterm hr
    rw [List.range_eq_range']
    exact Retry.go_terminal_response fetchAt maxRetries r hr n (maxRetries + 1) 0 none
      (by simpa using hn) (by simpa using hterm) (by omega) (by omega)
  · intro e hn hle hterm
    rw [List.range_eq_range']
    exact Retry.go_terminal_failure fetchAt maxRetries e n (maxRetries + 1) 0 none
      (by simpa using hn) (by simpa using hterm) (by omega) (by omega)
  · intro rlast hall hlast
    rw [List.range_eq_range']
    have := Retry.go_exhausted fetchAt maxRetries rlast (maxRetries + 1) 0 none
      (by intro k hk; simpa using hall k (by omega)) hlast (by omega) (by omega)
    simpa using this

/-- Witness for C6: a 503 followed by a thrown network failure is
propagated after exactly two fetches. -/
theorem C6_fetchWithRetry_witness :
    Retry.fetchWithRetry
        (fun k => if k = 0 then .response ⟨503⟩ else .failure "ECONNRESET") 10
      = ⟨.threw "ECONNRESET", 2, [0]⟩ :=
  (C6_fetchWithRetry (fun k => if k = 0 then .response ⟨503⟩ else .failure "ECONNRESET") 10 1).2.1
    "ECONNRESET"
    (by
      intro k hk
      have hk0 : k = 0 := by omega
      subst hk0
      exact ⟨⟨503⟩, rfl, rfl, rfl⟩)
    (by omega) rfl

namespace SSE

/-- `String.join` distributes over cons (foldl bookkeeping). -/
theorem foldl_append_shift (l : List String) :
    ∀ a b : String, l.foldl (· ++ ·) (a ++ b) = a ++ l.foldl (· ++ ·) b := by
  induction l with
  | nil => intro a b; rfl
  | cons c cs ih =>
    intro a b
    show cs.foldl (· ++ ·) (a ++ b ++ c) = a ++ cs.foldl (· ++ ·) (b ++ c)
    rw [String.append_assoc, ih]

/-- `String.join (s :: l) = s ++ String.join l`. -/
theorem join_cons (s : String) (l : List String) :
    String.join (s :: l) = s ++ String.join l := by
  show l.foldl (· ++ ·) ("" ++ s) = s ++ l.foldl (· ++ ·) ""
  rw [show ("" ++ s) = (s ++ "") by simp, foldl_append_shift]

/-- Processing a concatenation of event lists processes them in
sequence, concatenating the outputs. -/
theorem processEvents_append {J : Type} (jparse : String → Option J) :
    ∀ (l₁ l₂ : List StreamEvent) (st : SSEState),
      processEvents jparse st (l₁ ++ l₂)
        = ((processEvents jparse (processEvents jparse st l₁).1 l₂).1,
           (processEvents jparse st l₁).2
             ++ (processEvents jparse (processEvents jparse st l₁).1 l₂).2) := by
  intro l₁
  induction l₁ with
  | nil => intro l₂ st; simp [processEvents]
  | cons e es ih =>
    intro l₂ st
    simp only [List.cons_append, processEvents]
    rw [show (es.append l₂) = es ++ l₂ from rfl, ih]
    simp [List.append_assoc]

/-- One-step unfolding of `processEvents`. -/
theorem processEvents_cons {J : Type} (jparse : String → Option J)
    (st : SSEState) (e : StreamEvent) (es : List StreamEvent) :
    processEvents jparse st (e :: es)
      = ((processEvents jparse (processEvent jparse st e).1 es).1,
         (processEvent jparse st e).2
           ++ (processEvents jparse (processEvent jparse st e).1 es).2) := rfl

/-- Feeding `input_json_delta` fragments whose accumulated buffer never
parses leaves the state accumulating and emits nothing. -/
theorem deltas_progress {J : Type} (jparse : String → Option J) :
    ∀ (frags : List String) (st : SSEState) (tc : ToolCallState),
      st.currentToolCall = some tc →
      (∀ k, 0 < k → k ≤ frags.length →
        jparse (tc.inputJson ++ String.join (frags.take k)) = none) →
      processEvents jparse st (frags.map .inputJsonDelta)
        = ({ st with
              currentToolCall := some ⟨tc.id, tc.name, tc.inputJson ++ String.join frags⟩ },
           []) := by
  intro frags
  induction frags with
  | nil =>
    intro st tc htc _
    cases st
    cases tc
    simp only [List.map_nil, processEvents]
    simp_all [String.join]
  | cons f fs ih =>
    intro st tc htc hfail
    have h1 : jparse (tc.inputJson ++ f) = none := by
      have := hfail 1 (by omega) (by simp)
      simpa [join_cons, String.join] using this
    simp only [List.map_cons, processEvents, processEvent, htc, h1]
    have hrest := ih { st with currentToolCall := some ⟨tc.id, tc.name, tc.inputJson ++ f⟩ }
      ⟨tc.id, tc.name, tc.inputJson ++ f⟩ rfl
      (by
        intro k hk hk'
        have := hfail (k + 1) (by omega) (by simpa using hk')
        simpa [join_cons, String.append_assoc] using this)
    simp only [List.nil_append]
    rw [hrest]
    simp [join_cons, String.append_assoc]

/-- Feeding `input_json_delta` fragments whose accumulated buffer first
parses at the final fragment emits the tool call exactly once, at that
final fragment, and clears the accumulator entry. -/
theorem deltas_emit {J : Type} (jparse : String → Option J) :
    ∀ (frags : List String) (st : SSEState) (tc : ToolCallState) (v : J),
      st.currentToolCall = some tc →
      frags ≠ [] →
      (∀ k, 0 < k → k < frags.length →
        jparse (tc.inputJson ++ String.join (frags.take k)) = none) →
      jparse (tc.inputJson ++ String.join frags) = some v →
      processEvents jparse st (frags.map .inputJsonDelta)
        = ({ st with currentToolCall := none },
           [.toolCall tc.id tc.name v]) := by
  intro frags
  induction frags with
  | nil => intro st tc v _ hne _ _; exact absurd rfl hne
  | cons f fs ih =>
    intro st tc v htc _ hfail hfull
    cases fs with
    | nil =>
      have hv : jparse (tc.inputJson ++ f) = some v := by
        simpa [join_cons, String.join] using hfull
      simp [List.map_cons, List.map_nil, processEvents, processEvent, htc, hv]
    | cons f₂ fs₂ =>
      have h1 : jparse (tc.inputJson ++ f) = none := by
        have := hfail 1 (by omega) (by simp)
        simpa [join_cons, String.join] using this
      have hstep : processEvent jparse st (.inputJsonDelta f)
          = ({ st with currentToolCall := some ⟨tc.id, tc.name, tc.inputJson ++ f⟩ }, []) := by
        simp [processEvent, htc, h1]
      have hrest := ih { st with currentToolCall := some ⟨tc.id, tc.name, tc.inputJson ++ f⟩ }
        ⟨tc.id, tc.name, tc.inputJson ++ f⟩ v rfl (by simp)
        (by
          intro k hk hk'
          have := hfail (k + 1) (by omega) (by simpa using hk')
          simpa [join_cons, String.append_assoc] using this)
        (by simpa [join_cons, String.append_assoc] using hfull)
      simp only [List.map_cons] at hrest
      rw [List.map_cons, processEvents_cons, hstep]
      simp [hrest]

/-- Feeding `thinking_delta` events appends the text to the pending
thinking entry and streams each delta as a metadata-free thinking
part. -/
theorem thinking_deltas_run {J : Type} (jparse : String → Option J) :
    ∀ (tds : List String) (st : SSEState) (pt : ThinkingState),
      st.pendingThinking = some pt →
      processEvents jparse st (tds.map .thinkingDelta)
        = ({ st with
              pendingThinking := some ⟨pt.thinking ++ String.join tds, pt.signature⟩ },
           tds.map ResponsePart.thinkingStream) := by
  intro tds
  induction tds with
  | nil =>
    intro st pt hpt
    cases st
    cases pt
    simp_all [processEvents, String.join]
  | cons t ts ih =>
    intro st pt hpt
    have hstep : processEvent jparse st (.thinkingDelta t)
        = ({ st with pendingThinking := some ⟨pt.thinking ++ t, pt.signature⟩ }, 
           [ResponsePart.thinkingStream t]) := by
      simp [processEvent, hpt]
    have hrest := ih { st with pendingThinking := some ⟨pt.thinking ++ t, pt.signature⟩ }
      ⟨pt.thinking ++ t, pt.signature⟩ rfl
    simp only [List.map_cons] at hrest
    rw [List.map_cons, processEvents_cons, hstep]
    simp [hrest, join_cons, String.append_assoc]

/-- Feeding `signature_delta` events appends to the pending signature
and emits nothing. -/
theorem signature_deltas_run {J : Type} (jparse : String → Option J) :
    ∀ (sds : List String) (st : SSEState) (pt : ThinkingState),
      st.pendingThinking = some pt →
      processEvents jparse st (sds.map .signatureDelta)
        = ({ st with
              pendingThinking := some ⟨pt.thinking, pt.signature ++ String.join sds⟩ },
           []) := by
  intro sds
  induction sds with
  | nil =>
    intro st pt hpt
    cases st
    cases pt
    simp_all [processEvents, String.join]
  | cons t ts ih =>
    intro st pt hpt
    have hstep : processEvent jparse st (.signatureDelta t)
        = ({ st with pendingThinking := some ⟨pt.thinking, pt.signature ++ t⟩ }, []) := by
      simp [processEvent, hpt]
    have hrest := ih { st with pendingThinking := some ⟨pt.thinking, pt.signature ++ t⟩ }
      ⟨pt.thinking, pt.signature ++ t⟩ rfl
    simp only [List.map_cons] at hrest
    rw [List.map_cons, processEvents_cons, hstep]
    simp [hrest, join_cons, String.append_assoc]

end SSE

/-- C2: for a tool-use block whose `input_json_delta` fragments first
concatenate to parseable JSON at the final fragment, exactly one
`tool_call` part is emitted — carrying the block's id, name and the
parsed input — at the moment that fragment arrives (no proper prefix of
the fragments emits anything), and a subsequent `content_block_stop`
emits nothing further. -/
theorem C2_toolCallAccumulation {J : Type} (jparse : String → Option J)
    (id name : String) (frags : List String) (v : J)
    (hne : frags ≠ [])
    (hprefixFail : ∀ k, 0 < k → k < frags.length →
      jparse (String.join (frags.take k)) = none)
    (hfull : jparse (String.join frags) = some v) :
    SSE.processEvents jparse SSE.initState
        (.startToolUse id name :: frags.map .inputJsonDelta)
      = (SSE.initState, [.toolCall id name v]) ∧
    (∀ k, k < frags.length →
      (SSE.processEvents jparse SSE.initState
        (.startToolUse id name :: (frags.take k).map .inputJsonDelta)).2 = []) ∧
    SSE.processEvents jparse SSE.initState
        (.startToolUse id name :: (frags.map .inputJsonDelta ++ [.contentBlockStop]))
      = (SSE.initState, [.toolCall id name v]) := by
  have hstart : SSE.processEvent jparse SSE.initState (.startToolUse id name)
      = ((⟨some ⟨id, name, ""⟩, none, none, none, none, none⟩ : SSE.SSEState), []) := rfl
  have hmain := SSE.deltas_emit jparse frags
    (⟨some ⟨id, name, ""⟩, none, none, none, none, none⟩ : SSE.SSEState)
    ⟨id, name, ""⟩ v rfl hne
    (by intro k hk hk'; simpa using hprefixFail k hk hk')
    (by simpa using hfull)
  have hfirst : SSE.processEvents jparse SSE.initState
      (.startToolUse id name :: frags.map .inputJsonDelta)
      = (SSE.initState, [.toolCall id name v]) := by
    rw [SSE.processEvents_cons, hstart]
    simp [hmain, SSE.initState]
  refine ⟨hfirst, ?_, ?_⟩
  · intro k hk
    have hprog := SSE.deltas_progress jparse (frags.take k)
      (⟨some ⟨id, name, ""⟩, none, none, none, none, none⟩ : SSE.SSEState)
      ⟨id, name, ""⟩ rfl
      (by
        intro j hj hj'
        rw [List.length_take] at hj'
        have hjk : j ≤ k := by omega
        have hjlen : j < frags.length := by omega
        have htk : (frags.take k).take j = frags.take j := by
          rw [List.take_take, Nat.min_eq_left hjk]
        rw [htk]
        simpa using hprefixFail j hj hjlen)
    rw [SSE.processEvents_cons, hstart]
    simp [← List.map_take, hprog]
  · rw [show (SSE.StreamEvent.startToolUse id name
          :: (frags.map SSE.StreamEvent.inputJsonDelta ++ [SSE.StreamEvent.contentBlockStop]))
        = (SSE.StreamEvent.startToolUse id name :: frags.map SSE.StreamEvent.inputJsonDelta)
          ++ [SSE.StreamEvent.contentBlockStop]
      from rfl]
    rw [SSE.processEvents_append, hfirst]
    simp [SSE.processEvents, SSE.processEvent, SSE.initState]

/-- Witness for C2: two fragments assembling `\x7b"a":1\x7d` emit exactly
one tool call when the second fragment arrives. -/
theorem C2_toolCallAccumulation_witness :
    SSE.processEvents SSE.jsonParseSample SSE.initState
        (.startToolUse "t1" "search"
          :: (["\x7b\"a\"", ":1\x7d"].map SSE.StreamEvent.inputJsonDelta))
      = (SSE.initState,
         [.toolCall "t1" "search" (Json.obj [("a", Json.num 1)])]) :=
  (C2_toolCallAccumulation SSE.jsonParseSample "t1" "search"
      ["\x7b\"a\"", ":1\x7d"] (Json.obj [("a", Json.num 1)])
      (by decide)
      (by
        intro k hk hk'
        have hk2 : k < 2 := hk'
        have hk1 : k = 1 := by omega
        subst hk1
        rfl)
      rfl).1

/-- C4: a streamed thinking block (text deltas, then signature deltas,
then block stop) streams each delta as a metadata-free part and, at
block stop, emits exactly one metadata-bearing canonical thinking part —
carrying the accumulated signature and the concatenation of all text
deltas — when the accumulated signature is non-empty, and none when it
is empty. -/
theorem C4_thinkingReconstruction {J : Type} (jparse : String → Option J)
    (tds sds : List String) :
    SSE.processEvents jparse SSE.initState
        (.startThinking :: (tds.map SSE.StreamEvent.thinkingDelta
          ++ sds.map SSE.StreamEvent.signatureDelta
          ++ [SSE.StreamEvent.contentBlockStop]))
      = (SSE.initState,
         tds.map SSE.ResponsePart.thinkingStream ++
           (if String.join sds = "" then []
            else [SSE.ResponsePart.thinkingFinal (String.join sds) (String.join tds)])) := by
  have hstart : SSE.processEvent jparse SSE.initState .startThinking
      = ((⟨none, some ⟨"", ""⟩, none, none, none, none⟩ : SSE.SSEState), []) := rfl
  have htds := SSE.thinking_deltas_run jparse tds
    (⟨none, some ⟨"", ""⟩, none, none, none, none⟩ : SSE.SSEState) ⟨"", ""⟩ rfl
  have hsds := SSE.signature_deltas_run jparse sds
    (⟨none, some ⟨"" ++ String.join tds, ""⟩, none, none, none, none⟩ : SSE.SSEState)
    ⟨"" ++ String.join tds, ""⟩ rfl
  rw [SSE.processEvents_cons, hstart]
  rw [show tds.map SSE.StreamEvent.thinkingDelta
        ++ sds.map SSE.StreamEvent.signatureDelta ++ [SSE.StreamEvent.contentBlockStop]
      = tds.map SSE.StreamEvent.thinkingDelta
        ++ (sds.map SSE.StreamEvent.signatureDelta ++ [SSE.StreamEvent.contentBlockStop])
    from by simp]
  rw [SSE.processEvents_append]
  simp only at htds
  rw [htds]
  simp only
  rw [SSE.processEvents_append]
  simp only at hsds
  rw [hsds]
  simp only
  by_cases hsig : String.join sds = ""
  · simp [SSE.processEvents, SSE.processEvent, hsig, SSE.initState]
  · simp [SSE.processEvents, SSE.processEvent, hsig, SSE.initState]

namespace Antigravity

/-- Property read on a record value (`none` on non-records). -/
def recordGet (v : Json) (k : String) : Option Json :=
  match v with
  | .obj e => getEntry e k
  | _ => none

/-- The `properties` entries of a variant record (empty when absent or
not a record). -/
def variantProps (r : Entries) : Entries :=
  match getEntry r "properties" with
  | some (.obj p) => p
  | _ => []

/-- Assigning a key makes it readable. -/
theorem getEntry_setEntry_self (e : Entries) (k : String) (v : Json) :
    getEntry (setEntry e k v) k = some v := by
  induction e with
  | nil => simp [setEntry, getEntry]
  | cons kv rest ih =>
    obtain ⟨k', v'⟩ := kv
    by_cases h : k' = k
    · simp [setEntry, getEntry, h]
    · simp [setEntry, getEntry, h, ih]

/-- Assigning one key leaves reads of other keys unchanged. -/
theorem getEntry_setEntry_ne (e : Entries) (k k' : String) (v : Json)
    (h : k' ≠ k) : getEntry (setEntry e k' v) k = getEntry e k := by
  induction e with
  | nil => simp [setEntry, getEntry, h]
  | cons kv rest ih =>
    obtain ⟨k'', v''⟩ := kv
    by_cases h2 : k'' = k'
    · subst h2
      simp [setEntry, getEntry, h]
    · simp [setEntry, getEntry, h2, ih]

/-- `insertUnique` preserves duplicate-freedom. -/
theorem insertUnique_nodup (l : List String) (s : String) (h : l.Nodup) :
    (insertUnique l s).Nodup := by
  unfold insertUnique
  by_cases hc : l.contains s = true
  · have hmem : s ∈ l := by simpa using hc
    simp [hmem, h]
  · simp only [hc, Bool.false_eq_true, if_false]
    rw [List.nodup_append]
    refine ⟨h, by simp, ?_⟩
    simp only [List.disjoint_singleton]
    intro hmem
    exact hc (by simpa using hmem)

/-- The `requiredSet` loop produces a duplicate-free list. -/
theorem addRequired_nodup (items : List Json) :
    ∀ acc : List String, acc.Nodup → (addRequired acc items).Nodup := by
  induction items with
  | nil => intro acc h; exact h
  | cons item rest ih =>
    intro acc h
    show (addRequired
        (match item with
         | .str s => if s ≠ "" then insertUnique acc s else acc
         | _ => acc) rest).Nodup
    match item with
    | .str s =>
      by_cases hs : s = ""
      · simpa [hs] using ih acc h
      · simpa [hs] using ih (insertUnique acc s) (insertUnique_nodup acc s h)
    | .null | .bool _ | .num _ | .arr _ | .obj _ => exact ih acc h

/-- Inserting a duplicate-free list of fresh elements appends it. -/
theorem foldl_insertUnique_of_disjoint (l : List String) :
    ∀ acc : List String, l.Nodup → (∀ x ∈ l, x ∉ acc) →
      l.foldl insertUnique acc = acc ++ l := by
  induction l with
  | nil => intro acc _ _; simp
  | cons x xs ih =>
    intro acc hnd hdisj
    have hx : x ∉ acc := hdisj x (by simp)
    have hstep : insertUnique acc x = acc ++ [x] := by
      unfold insertUnique
      rw [if_neg (by simpa using hx)]
    show xs.foldl insertUnique (insertUnique acc x) = acc ++ x :: xs
    rw [hstep, ih (acc ++ [x]) (by simp_all)
      (by
        intro y hy
        simp only [List.mem_append, List.mem_singleton, not_or]
        refine ⟨fun hya => hdisj y (by simp [hy]) hya, ?_⟩
        intro hyx
        subst hyx
        exact (List.nodup_cons.mp hnd).1 hy)]
    simp

/-- The merged-properties loop of `simplifyUnionSchemas` computes the
first-wins union, key-wise. -/
theorem mergedProps_lookup (p : Entries) :
    ∀ (acc : Entries) (k : String),
      getEntry (p.foldl
        (fun acc kv => if !hasKey acc kv.1 then setEntry acc kv.1 kv.2 else acc) acc) k
        = (getEntry acc k).or (getEntry p k) := by
  induction p with
  | nil => intro acc k; simp [getEntry]
  | cons kv ps ih =>
    intro acc k
    obtain ⟨k', v'⟩ := kv
    show getEntry (ps.foldl _ (if !hasKey acc k' then setEntry acc k' v' else acc)) k
        = (getEntry acc k).or (getEntry ((k', v') :: ps) k)
    by_cases hin : hasKey acc k'
    · rw [if_neg (by simp [hin]), ih]
      by_cases hk : k' = k
      · subst hk
        obtain ⟨w, hw⟩ := Option.isSome_iff_exists.mp hin
        simp [getEntry, hw]
      · simp [getEntry, hk]
    · rw [if_pos (by simp [hin]), ih]
      by_cases hk : k' = k
      · subst hk
        have hnone : getEntry acc k' = none :=
          Option.not_isSome_iff_eq_none.mp (by simpa [hasKey] using hin)
        simp [getEntry_setEntry_self, hnone, getEntry]
      · rw [getEntry_setEntry_ne acc k k' v' hk]
        simp [getEntry, hk]

end Antigravity

namespace Antigravity

/-- Lookup distributes over entry-list concatenation. -/
theorem getEntry_append (a b : Entries) (k : String) :
    getEntry (a ++ b) k = (getEntry a k).or (getEntry b k) := by
  induction a with
  | nil => simp [getEntry]
  | cons kv rest ih =>
    obtain ⟨k', v'⟩ := kv
    by_cases h : k' = k
    · simp [getEntry, h]
    · simp [getEntry, h, ih]

/-- Assigning an absent key appends it. -/
theorem setEntry_of_absent (e : Entries) (k : String) (v : Json)
    (h : getEntry e k = none) : setEntry e k v = e ++ [(k, v)] := by
  induction e with
  | nil => simp [setEntry]
  | cons kv rest ih =>
    obtain ⟨k', v'⟩ := kv
    by_cases hk : k' = k
    · simp [getEntry, hk] at h
    · simp only [getEntry, hk, if_false, if_neg hk] at h ⊢
      rw [setEntry, if_neg hk, ih h]
      simp

/-- The merged-properties field of one union-loop step. -/
theorem unionLoopStep_mergedProperties (st : UnionLoopState) (r : Entries) :
    (unionLoopStep st r).mergedProperties
      = (variantProps r).foldl
          (fun acc kv => if !hasKey acc kv.1 then setEntry acc kv.1 kv.2 else acc)
          st.mergedProperties := by
  unfold unionLoopStep variantProps
  rcases h : getEntry r "properties" with _ | j
  · simp only [h]
    split <;> rfl
  · cases j <;> simp only [h] <;> split <;> rfl

/-- The required-intersection field of the first union-loop step. -/
theorem unionLoopStep_required_first (st : UnionLoopState) (r : Entries)
    (h : st.requiredInitialized = false) :
    (unionLoopStep st r).requiredIntersection
      = (requiredSetOf r).foldl insertUnique st.requiredIntersection := by
  unfold unionLoopStep
  simp [h]

/-- The required-intersection field of later union-loop steps. -/
theorem unionLoopStep_required_later (st : UnionLoopState) (r : Entries)
    (h : st.requiredInitialized = true) :
    (unionLoopStep st r).requiredIntersection
      = st.requiredIntersection.filter (fun item => (requiredSetOf r).contains item) := by
  unfold unionLoopStep
  simp [h]

/-- Each union-loop step marks the intersection initialized. -/
theorem unionLoopStep_initialized (st : UnionLoopState) (r : Entries) :
    (unionLoopStep st r).requiredInitialized = true := by
  unfold unionLoopStep
  by_cases h : st.requiredInitialized <;> simp [h]

end Antigravity

/-- The `requiredSet` of a variant is duplicate-free. -/
theorem Antigravity.requiredSetOf_nodup (r : Antigravity.Entries) :
    (Antigravity.requiredSetOf r).Nodup := by
  unfold Antigravity.requiredSetOf
  rcases h : Antigravity.getEntry r "required" with _ | j
  · simp
  · cases j <;>
      first
        | exact Antigravity.addRequired_nodup _ [] (by simp)
        | simp

/-- C9 (amended): for a schema whose top level is an `anyOf` of exactly
two variants that the `clean` closure maps to object records, the
sanitizer produces one merged object schema whose `required` is exactly
the intersection of the two cleaned variants' required sets (key omitted
when the intersection is empty), whose `properties` is the key-wise
union of the cleaned variants' properties with the first variant winning
on shared names, and whose description carries the human-readable
simplification note. -/
theorem C9_unionSimplification (cleanFn : Json → Json) (v₁ v₂ : Json)
    (r₁ r₂ : Antigravity.Entries)
    (h₁ : cleanFn v₁ = .obj r₁) (h₂ : cleanFn v₂ = .obj r₂) :
    (∀ k, (match Antigravity.recordGet (Antigravity.simplifyUnionSchemasP cleanFn "anyOf"
          [("anyOf", Json.arr [v₁, v₂])] [v₁, v₂]) "properties" with
        | some (.obj p) => Antigravity.getEntry p k
        | _ => none)
      = (Antigravity.getEntry (Antigravity.variantProps r₁) k).or
          (Antigravity.getEntry (Antigravity.variantProps r₂) k)) ∧
    Antigravity.recordGet (Antigravity.simplifyUnionSchemasP cleanFn "anyOf"
        [("anyOf", Json.arr [v₁, v₂])] [v₁, v₂]) "required"
      = (if (Antigravity.requiredSetOf r₁).filter
            (fun s => (Antigravity.requiredSetOf r₂).contains s) = [] then none
         else some (.arr (((Antigravity.requiredSetOf r₁).filter
            (fun s => (Antigravity.requiredSetOf r₂).contains s)).map Json.str))) ∧
    Antigravity.recordGet (Antigravity.simplifyUnionSchemasP cleanFn "anyOf"
        [("anyOf", Json.arr [v₁, v₂])] [v₁, v₂]) "description"
      = some (.str "anyOf simplified for Antigravity tool schema compatibility (2 variants).") := by
  have hcv : (([v₁, v₂].map cleanFn).filterMap Antigravity.asRecord) = [r₁, r₂] := by
    simp [h₁, h₂, Antigravity.asRecord]
  have hstep1m := Antigravity.unionLoopStep_mergedProperties ⟨[], [], false⟩ r₁
  have hstep1r := Antigravity.unionLoopStep_required_first ⟨[], [], false⟩ r₁ rfl
  have hstep1i := Antigravity.unionLoopStep_initialized ⟨[], [], false⟩ r₁
  have hstep2m := Antigravity.unionLoopStep_mergedProperties
    (Antigravity.unionLoopStep ⟨[], [], false⟩ r₁) r₂
  have hstep2r := Antigravity.unionLoopStep_required_later
    (Antigravity.unionLoopStep ⟨[], [], false⟩ r₁) r₂ hstep1i
  have hreq1 : (Antigravity.unionLoopStep ⟨[], [], false⟩ r₁).requiredIntersection
      = Antigravity.requiredSetOf r₁ := by
    rw [hstep1r]
    show List.foldl Antigravity.insertUnique [] (Antigravity.requiredSetOf r₁) = _
    rw [Antigravity.foldl_insertUnique_of_disjoint (Antigravity.requiredSetOf r₁) []
      (Antigravity.requiredSetOf_nodup r₁) (by simp)]
    simp
  set mp := (Antigravity.variantProps r₂).foldl
    (fun acc kv => if !Antigravity.hasKey acc kv.1 then Antigravity.setEntry acc kv.1 kv.2 else acc)
    ((Antigravity.variantProps r₁).foldl
      (fun acc kv => if !Antigravity.hasKey acc kv.1 then Antigravity.setEntry acc kv.1 kv.2 else acc)
      []) with hmpdef
  set inter := (Antigravity.requiredSetOf r₁).filter
    (fun s => (Antigravity.requiredSetOf r₂).contains s) with hinterdef
  have hloopm : ([r₁, r₂].foldl Antigravity.unionLoopStep ⟨[], [], false⟩).mergedProperties = mp := by
    show (Antigravity.unionLoopStep (Antigravity.unionLoopStep ⟨[], [], false⟩ r₁) r₂).mergedProperties = mp
    rw [hstep2m, hstep1m]
  have hloopr : ([r₁, r₂].foldl Antigravity.unionLoopStep ⟨[], [], false⟩).requiredIntersection = inter := by
    show (Antigravity.unionLoopStep (Antigravity.unionLoopStep ⟨[], [], false⟩ r₁) r₂).requiredIntersection = inter
    rw [hstep2r, hreq1]
  have hmplookup : ∀ k, Antigravity.getEntry mp k
      = (Antigravity.getEntry (Antigravity.variantProps r₁) k).or
          (Antigravity.getEntry (Antigravity.variantProps r₂) k) := by
    intro k
    rw [hmpdef, Antigravity.mergedProps_lookup, Antigravity.mergedProps_lookup]
    simp [Antigravity.getEntry]
  have hres : Antigravity.simplifyUnionSchemasP cleanFn "anyOf"
      [("anyOf", Json.arr [v₁, v₂])] [v₁, v₂]
      = Json.obj ((if !mp.isEmpty then [("properties", Json.obj mp)] else [])
          ++ (if !inter.isEmpty then [("required", Json.arr (inter.map Json.str))] else [])
          ++ [("description",
                Json.str "anyOf simplified for Antigravity tool schema compatibility (2 variants).")]) := by
    simp only [Antigravity.simplifyUnionSchemasP, hcv]
    rw [hloopm, hloopr]
    rw [show (List.length ([r₁, r₂] : List Antigravity.Entries)) = 2 from rfl]
    rw [show toString (2 : ℕ) = "2" from rfl]
    rw [show Antigravity.eraseEntry [("anyOf", Json.arr [v₁, v₂])] "anyOf" = [] from rfl]
    by_cases hmp : mp.isEmpty <;> by_cases hint : inter.isEmpty
    · simp only [hmp, hint, Bool.not_true, Bool.false_eq_true, if_false]
      rw [show Antigravity.appendHintToDescription []
          ("anyOf" ++ " simplified for Antigravity tool schema compatibility ("
            ++ "2" ++ " variants).")
        = [("description",
            Json.str "anyOf simplified for Antigravity tool schema compatibility (2 variants).")]
        from rfl]
      simp
    · simp only [hmp, hint, Bool.not_true, Bool.not_false, Bool.false_eq_true, if_false, if_true]
      rw [show Antigravity.setEntry [] "required" (Json.arr (inter.map Json.str))
          = [("required", Json.arr (inter.map Json.str))] from rfl]
      rw [show Antigravity.appendHintToDescription [("required", Json.arr (inter.map Json.str))]
          ("anyOf" ++ " simplified for Antigravity tool schema compatibility ("
            ++ "2" ++ " variants).")
        = [("required", Json.arr (inter.map Json.str)),
           ("description",
            Json.str "anyOf simplified for Antigravity tool schema compatibility (2 variants).")]
        from rfl]
      simp
    · simp only [hmp, hint, Bool.not_true, Bool.not_false, Bool.false_eq_true, if_false, if_true]
      rw [show Antigravity.setEntry [] "properties" (Json.obj mp)
          = [("properties", Json.obj mp)] from rfl]
      rw [show Antigravity.appendHintToDescription [("properties", Json.obj mp)]
          ("anyOf" ++ " simplified for Antigravity tool schema compatibility ("
            ++ "2" ++ " variants).")
        = [("properties", Json.obj mp),
           ("description",
            Json.str "anyOf simplified for Antigravity tool schema compatibility (2 variants).")]
        from rfl]
      simp
    · simp only [hmp, hint, Bool.not_false, if_true]
      rw [show Antigravity.setEntry [] "properties" (Json.obj mp)
          = [("properties", Json.obj mp)] from rfl]
      rw [show Antigravity.setEntry [("properties", Json.obj mp)] "required"
            (Json.arr (inter.map Json.str))
          = [("properties", Json.obj mp), ("required", Json.arr (inter.map Json.str))] from rfl]
      rw [show Antigravity.appendHintToDescription
            [("properties", Json.obj mp), ("required", Json.arr (inter.map Json.str))]
          ("anyOf" ++ " simplified for Antigravity tool schema compatibility ("
            ++ "2" ++ " variants).")
        = [("properties", Json.obj mp), ("required", Json.arr (inter.map Json.str)),
           ("description",
            Json.str "anyOf simplified for Antigravity tool schema compatibility (2 variants).")]
        from rfl]
      simp
  rw [hres]
  refine ⟨?_, ?_, ?_⟩
  · intro k
    show (match Antigravity.getEntry _ "properties" with
        | some (.obj p) => Antigravity.getEntry p k
        | _ => none) = _
    rw [← hmplookup k]
    by_cases hmp : mp.isEmpty
    · have hmp0 : mp = [] := List.isEmpty_iff.mp hmp
      by_cases hint : inter.isEmpty <;>
        simp [hmp, hint, hmp0, Antigravity.getEntry]
    · by_cases hint : inter.isEmpty <;>
        simp [hmp, hint, Antigravity.getEntry]
  · show Antigravity.getEntry _ "required" = _
    by_cases hint : inter.isEmpty
    · have h0 : inter = [] := List.isEmpty_iff.mp hint
      by_cases hmp : mp.isEmpty <;> simp [hmp, hint, h0, Antigravity.getEntry]
    · have h0 : ¬ inter = [] := fun h => hint (by simp [h])
      by_cases hmp : mp.isEmpty <;> simp [hmp, hint, h0, Antigravity.getEntry]
  · show Antigravity.getEntry _ "description" = _
    by_cases hint : inter.isEmpty <;> by_cases hmp : mp.isEmpty <;>
      simp [hmp, hint, Antigravity.getEntry]

/-- Witness for C9 on two concrete object variants: required
intersection `["c"]`, union of properties with first-variant win on
`"c"`. -/
theorem C9_unionSimplification_witness :
    Antigravity.recordGet (Antigravity.simplifyUnionSchemasP (fun v => v) "anyOf"
        [("anyOf", Json.arr [
          Json.obj [("properties", Json.obj [("a", Json.obj [("type", Json.str "string")]),
                                             ("c", Json.obj [("type", Json.str "number")])]),
                    ("required", Json.arr [Json.str "a", Json.str "c"])],
          Json.obj [("properties", Json.obj [("b", Json.obj [("type", Json.str "string")]),
                                             ("c", Json.obj [("type", Json.str "integer")])]),
                    ("required", Json.arr [Json.str "c", Json.str "b"])]])]
        [Json.obj [("properties", Json.obj [("a", Json.obj [("type", Json.str "string")]),
                                            ("c", Json.obj [("type", Json.str "number")])]),
                   ("required", Json.arr [Json.str "a", Json.str "c"])],
         Json.obj [("properties", Json.obj [("b", Json.obj [("type", Json.str "string")]),
                                            ("c", Json.obj [("type", Json.str "integer")])]),
                   ("required", Json.arr [Json.str "c", Json.str "b"])]]) "required"
      = some (Json.arr [Json.str "c"]) :=
  (C9_unionSimplification (fun v => v)
    (Json.obj [("properties", Json.obj [("a", Json.obj [("type", Json.str "string")]),
                                        ("c", Json.obj [("type", Json.str "number")])]),
               ("required", Json.arr [Json.str "a", Json.str "c"])])
    (Json.obj [("properties", Json.obj [("b", Json.obj [("type", Json.str "string")]),
                                        ("c", Json.obj [("type", Json.str "integer")])]),
               ("required", Json.arr [Json.str "c", Json.str "b"])])
    [("properties", Json.obj [("a", Json.obj [("type", Json.str "string")]),
                              ("c", Json.obj [("type", Json.str "number")])]),
     ("required", Json.arr [Json.str "a", Json.str "c"])]
    [("properties", Json.obj [("b", Json.obj [("type", Json.str "string")]),
                              ("c", Json.obj [("type", Json.str "integer")])]),
     ("required", Json.arr [Json.str "c", Json.str "b"])]
    rfl rfl).2.1

/-- Counterexample to C9 as stated: when a variant's `required` names an
undeclared property, the sanitizer prunes it before intersecting, so the
output's `required` is **absent** even though the intersection of the
two variants' required sets is `["b"]`. -/
theorem C9_counterexample :
    Antigravity.recordGet
        (Antigravity.cleanJsonSchemaForAntigravity 50
          (.obj [("anyOf", .arr [
            .obj [("type", .str "object"),
                  ("properties", .obj [("a", .obj [("type", .str "string")])]),
                  ("required", .arr [.str "a", .str "b"])],
            .obj [("type", .str "object"),
                  ("properties", .obj [("b", .obj [("type", .str "string")])]),
                  ("required", .arr [.str "b"])]])]))
        "required" = none ∧
    (Antigravity.requiredSetOf
        [("type", Json.str "object"),
         ("properties", Json.obj [("a", Json.obj [("type", Json.str "string")])]),
         ("required", Json.arr [Json.str "a", Json.str "b"])]).filter
      (fun s => (Antigravity.requiredSetOf
        [("type", Json.str "object"),
         ("properties", Json.obj [("b", Json.obj [("type", Json.str "string")])]),
         ("required", Json.arr [Json.str "b"])]).contains s) = ["b"] :=
  ⟨rfl, rfl⟩

namespace ModelId

/-- `hexVal` inverts `hexDigit` on byte nibbles. -/
theorem hexVal_hexDigit (n : ℕ) (h : n < 16) : hexVal (hexDigit n) = some n := by
  interval_cases n <;> rfl

/-- Hex digits are never a slash. -/
theorem hexDigit_ne_slash (n : ℕ) : hexDigit n ≠ '/' := by
  unfold hexDigit
  split <;> decide

/-- UTF-8 encoding produces bytes. -/
theorem utf8EncodeNat_lt (n : ℕ) (h : n < 1114112) :
    ∀ b ∈ utf8EncodeNat n, b < 256 := by
  intro b hb
  unfold utf8EncodeNat at hb
  split_ifs at hb <;> simp at hb <;> omega

/-- One step of percent-decoding at a `%` escape. -/
theorem percentDecodeBytes_percent (h1 h2 : Char) (l : List Char) (a b : ℕ)
    (ha : hexVal h1 = some a) (hb : hexVal h2 = some b) :
    percentDecodeBytes ('%' :: h1 :: h2 :: l)
      = (percentDecodeBytes l).map (fun bs => (a * 16 + b) :: bs) := by
  conv_lhs => rw [percentDecodeBytes]
  rw [if_pos rfl, ha, hb]

/-- One step of percent-decoding at a plain character. -/
theorem percentDecodeBytes_plain (c : Char) (l : List Char) (h : ¬ c = '%') :
    percentDecodeBytes (c :: l)
      = (percentDecodeBytes l).map (fun bs => utf8EncodeChar c ++ bs) := by
  cases l with
  | nil => simp [percentDecodeBytes, h]
  | cons x xs =>
    cases xs with
    | nil => simp [percentDecodeBytes, h]
    | cons y ys =>
      conv_lhs => rw [percentDecodeBytes]
      rw [if_neg h]

/-- Percent-decoding a percent-encoded byte yields that byte. -/
theorem percentDecode_encodeByte (b : ℕ) (hb : b < 256) (l : List Char) :
    percentDecodeBytes (percentEncodeByte b ++ l)
      = (percentDecodeBytes l).map (fun bs => b :: bs) := by
  show percentDecodeBytes ('%' :: hexDigit (b / 16) :: hexDigit (b % 16) :: l) = _
  rw [percentDecodeBytes_percent _ _ _ _ _
    (hexVal_hexDigit (b / 16) (by omega)) (hexVal_hexDigit (b % 16) (by omega))]
  rw [show b / 16 * 16 + b % 16 = b by omega]

/-- Percent-decoding the encoding of a byte list contributes exactly
those bytes. -/
theorem percentDecode_encodeBytes (bs : List ℕ) (hbs : ∀ b ∈ bs, b < 256) :
    ∀ l : List Char,
      percentDecodeBytes (bs.flatMap percentEncodeByte ++ l)
        = (percentDecodeBytes l).map (fun rest => bs ++ rest) := by
  induction bs with
  | nil =>
    intro l
    simp only [List.flatMap_nil, List.nil_append]
    rcases percentDecodeBytes l with _ | r <;> simp
  | cons b rest ih =>
    intro l
    rw [List.flatMap_cons, List.append_assoc,
      percentDecode_encodeByte b (hbs b (by simp)) _,
      ih (fun x hx => hbs x (by simp [hx])) l]
    rcases percentDecodeBytes l with _ | r <;> simp

/-- Percent-decoding the encoding of one character. -/
theorem percentDecode_encodeChar (c : Char) (l : List Char) :
    percentDecodeBytes (encodeURIComponentChar c ++ l)
      = (percentDecodeBytes l).map (fun bs => utf8EncodeChar c ++ bs) := by
  unfold encodeURIComponentChar
  by_cases h : isUnreservedChar c
  · rw [if_pos h]
    have hne : ¬ c = '%' := by
      intro hc
      subst hc
      simp [isUnreservedChar] at h
    show percentDecodeBytes (c :: l) = _
    exact percentDecodeBytes_plain c l hne
  · rw [if_neg h]
    have hlt : c.toNat < 1114112 := by
      rcases c.valid with hv | hv
      · exact lt_trans hv (by norm_num)
      · exact hv.2
    exact percentDecode_encodeBytes (utf8EncodeChar c)
      (utf8EncodeNat_lt c.toNat hlt) l

/-- Percent-decoding a full `encodeURIComponent` output yields the
UTF-8 bytes of the original string. -/
theorem percentDecode_encodeList (cs : List Char) :
    percentDecodeBytes (cs.flatMap encodeURIComponentChar)
      = some (cs.flatMap utf8EncodeChar) := by
  induction cs with
  | nil => rfl
  | cons c rest ih =>
    rw [List.flatMap_cons, percentDecode_encodeChar, ih, List.flatMap_cons]
    rfl

end ModelId

namespace ModelId

/-- Decoding after the UTF-8 encoding of one character recovers that
character and continues with the remaining bytes. -/
theorem utf8DecodeGo_encodeChar (c : Char) (bs : List ℕ) (fuel : ℕ) :
    utf8DecodeGo (fuel + 1) (utf8EncodeChar c ++ bs)
      = (utf8DecodeGo fuel bs).map (fun cs => c :: cs) := by
  have hval : c.toNat < 55296 ∨ (57343 < c.toNat ∧ c.toNat < 1114112) := c.valid
  have hofn : Char.ofNat c.toNat = c := Char.ofNat_toNat c
  unfold utf8EncodeChar utf8EncodeNat
  by_cases h1 : c.toNat < 128
  · rw [if_pos h1]
    show utf8DecodeGo (fuel + 1) (c.toNat :: bs) = _
    conv_lhs => rw [utf8DecodeGo]
    rw [if_pos h1, hofn]
  · rw [if_neg h1]
    by_cases h2 : c.toNat < 2048
    · rw [if_pos h2]
      show utf8DecodeGo (fuel + 1)
        ((192 + c.toNat / 64) :: (128 + c.toNat % 64) :: bs) = _
      conv_lhs => rw [utf8DecodeGo]
      rw [if_neg (by omega), if_neg (by omega), if_pos (by omega)]
      simp only [List.headD_cons, List.drop_succ_cons, List.drop_zero]
      rw [if_pos (by simp only [Bool.and_eq_true, decide_eq_true_eq]; omega)]
      rw [show (192 + c.toNat / 64 - 192) * 64 + (128 + c.toNat % 64 - 128) = c.toNat
        by omega, hofn]
    · rw [if_neg h2]
      by_cases h3 : c.toNat < 65536
      · rw [if_pos h3]
        show utf8DecodeGo (fuel + 1)
          ((224 + c.toNat / 4096) :: (128 + c.toNat / 64 % 64) :: (128 + c.toNat % 64) :: bs) = _
        conv_lhs => rw [utf8DecodeGo]
        rw [if_neg (by omega), if_neg (by omega), if_neg (by omega), if_pos (by omega)]
        simp only [List.headD_cons, List.drop_succ_cons, List.drop_zero]
        rw [if_pos (by simp only [Bool.and_eq_true, decide_eq_true_eq]; omega)]
        rw [if_neg (by omega), if_neg (by simp only [Bool.and_eq_true, decide_eq_true_eq]; omega)]
        rw [show (224 + c.toNat / 4096 - 224) * 4096 + (128 + c.toNat / 64 % 64 - 128) * 64
              + (128 + c.toNat % 64 - 128) = c.toNat by omega, hofn]
      · rw [if_neg h3]
        have h4 : c.toNat < 1114112 := by omega
        show utf8DecodeGo (fuel + 1)
          ((240 + c.toNat / 262144) :: (128 + c.toNat / 4096 % 64)
            :: (128 + c.toNat / 64 % 64) :: (128 + c.toNat % 64) :: bs) = _
        conv_lhs => rw [utf8DecodeGo]
        rw [if_neg (by omega), if_neg (by omega), if_neg (by omega), if_neg (by omega),
          if_pos (by omega)]
        simp only [List.headD_cons, List.drop_succ_cons, List.drop_zero]
        rw [if_pos (by simp only [Bool.and_eq_true, decide_eq_true_eq]; omega)]
        rw [if_neg (by omega), if_neg (by omega)]
        rw [show (240 + c.toNat / 262144 - 240) * 262144 + (128 + c.toNat / 4096 % 64 - 128) * 4096
              + (128 + c.toNat / 64 % 64 - 128) * 64 + (128 + c.toNat % 64 - 128) = c.toNat
          by omega, hofn]

end ModelId

namespace ModelId

/-- Round trip of the UTF-8 layer, with enough fuel. -/
theorem utf8DecodeGo_encodeList (cs : List Char) :
    ∀ fuel, cs.length ≤ fuel →
      utf8DecodeGo fuel (cs.flatMap utf8EncodeChar) = some cs := by
  induction cs with
  | nil =>
    intro fuel _
    cases fuel <;> rfl
  | cons c rest ih =>
    intro fuel hfuel
    obtain ⟨f, rfl⟩ : ∃ f, fuel = f + 1 := ⟨fuel - 1, by simp at hfuel; omega⟩
    rw [List.flatMap_cons, utf8DecodeGo_encodeChar, ih f (by simp at hfuel; omega)]
    rfl

/-- Every character encodes to at least one byte. -/
theorem length_le_flatMap_utf8 (cs : List Char) :
    cs.length ≤ (cs.flatMap utf8EncodeChar).length := by
  induction cs with
  | nil => simp
  | cons c rest ih =>
    rw [List.flatMap_cons, List.length_append, List.length_cons]
    have : 1 ≤ (utf8EncodeChar c).length := by
      unfold utf8EncodeChar utf8EncodeNat
      split_ifs <;> simp
    omega

/-- UTF-8 decoding inverts UTF-8 encoding. -/
theorem utf8Decode_encodeList (cs : List Char) :
    utf8Decode (cs.flatMap utf8EncodeChar) = some cs :=
  utf8DecodeGo_encodeList cs _ (length_le_flatMap_utf8 cs)

/-- `encodeURIComponent` never emits a slash. -/
theorem encodeURIComponentChar_ne_slash (c : Char) :
    ∀ ch ∈ encodeURIComponentChar c, ch ≠ '/' := by
  intro ch hch
  unfold encodeURIComponentChar at hch
  by_cases h : isUnreservedChar c
  · rw [if_pos h] at hch
    simp only [List.mem_singleton] at hch
    subst hch
    intro hc
    subst hc
    simp [isUnreservedChar] at h
  · rw [if_neg h] at hch
    simp only [List.mem_flatMap] at hch
    obtain ⟨b, _, hb⟩ := hch
    unfold percentEncodeByte at hb
    simp only [List.mem_cons, List.mem_singleton, List.not_mem_nil, or_false] at hb
    rcases hb with hb | hb | hb
    · subst hb; decide
    · subst hb; exact hexDigit_ne_slash _
    · subst hb; exact hexDigit_ne_slash _

/-- Splitting at the first slash of `pre ++ '/' :: suf` recovers the two
pieces when `pre` is slash-free. -/
theorem splitAtFirst_slash (pre : List Char) (hpre : ∀ ch ∈ pre, ch ≠ '/') :
    ∀ suf : List Char, splitAtFirst '/' (pre ++ '/' :: suf) = some (pre, suf) := by
  induction pre with
  | nil =>
    intro suf
    show splitAtFirst '/' ('/' :: suf) = _
    unfold splitAtFirst
    rw [if_pos rfl]
  | cons c rest ih =>
    intro suf
    show splitAtFirst '/' (c :: (rest ++ '/' :: suf)) = _
    unfold splitAtFirst
    rw [if_neg (hpre c (by simp)), ih (fun ch hch => hpre ch (by simp [hch])) suf]
    rfl

end ModelId

/-- C10: the composite model id built by `createModelId` round-trips:
`parseModelId` recovers the encoded provider name and the full model id
(even when the model id itself contains slashes), and
`decodeProviderName` inverts the provider-name encoding. -/
theorem C10_modelIdRoundTrip (name id : String) :
    ModelId.parseModelId (ModelId.createModelId name id)
      = some ⟨ModelId.encodeProviderName name, id⟩ ∧
    ModelId.decodeProviderName (ModelId.encodeProviderName name) = some name := by
  constructor
  · unfold ModelId.parseModelId ModelId.createModelId
    have hdata : (ModelId.encodeProviderName name ++ "/" ++ id).data
        = (ModelId.encodeProviderName name).data ++ '/' :: id.data := by
      rw [String.data_append, String.data_append]
      simp
    rw [hdata, ModelId.splitAtFirst_slash _ ?hfree id.data]
    case hfree =>
      intro ch hch
      have : ch ∈ name.data.flatMap ModelId.encodeURIComponentChar := hch
      simp only [List.mem_flatMap] at this
      obtain ⟨c, _, hc⟩ := this
      exact ModelId.encodeURIComponentChar_ne_slash c ch hc
  · unfold ModelId.decodeProviderName ModelId.decodeURIComponent
    have hdata : (ModelId.encodeProviderName name).data
        = name.data.flatMap ModelId.encodeURIComponentChar := rfl
    rw [hdata]
    have hpd := ModelId.percentDecode_encodeList name.data
    rw [hpd]
    show (ModelId.utf8Decode (name.data.flatMap ModelId.utf8EncodeChar)).map _ = _
    rw [ModelId.utf8Decode_encodeList]
    rfl
